import Mathlib

/-
Verification of the adx-rs auction pipeline (an OpenRTB ad exchange written in
Rust) against its natural-language specification.

The development shallowly embeds the pure core of the pipeline:

* string rewriting on creatives (`src/bidding/engine.rs`: `inject_ssp_tracking`,
  the `\x7bAUCTION_PRICE\x7d` macro substitution),
* sensitive-content filtering (`contains_sensitive_content`),
* the auction engine `process_bid_request` (aggregation, partitioning, sorting,
  winner selection, pricing, logging),
* the pure tail of the DSP fan-out `fetch_bids` (`src/bidding/dsp_client.rs`:
  per-demand outcome construction, top-price extraction, final sort),
* the HTTP front `handle_openrtb_request` (`src/api/handlers.rs`).

Rust `String`s are modelled as `List Char`; byte indices of the source become
character indices, which agree on the ASCII data the engine manipulates.
Rust `f64` is modelled as an exact rational together with a NaN point
(`F64` below); the claims settled here do not depend on rounding, only on
which comparisons are defined and on the 20 % markdown factor.
Potentially-panicking code paths are modelled in `Except Panic`.
-/

abbrev Str := List Char

namespace AdxRs

/-! ## String primitives (models of the Rust `str` methods used by the engine) -/

/-- Model of Rust `str::contains(pat)`: `pat` occurs as a contiguous substring. -/
def strContains (pat : Str) : Str → Bool
  | [] => pat.isEmpty
  | c :: rest => pat.isPrefixOf (c :: rest) || strContains pat rest

/-- Model of Rust `str::find(pat)`: index of the first occurrence of `pat`. -/
def findSub (pat : Str) : Str → Option Nat
  | [] => if pat.isEmpty then some 0 else none
  | c :: rest =>
    if pat.isPrefixOf (c :: rest) then some 0
    else (findSub pat rest).map (· + 1)

/-- Model of Rust `str::rfind(pat)`: index of the last occurrence of `pat`. -/
def rfindSub (pat : Str) : Str → Option Nat
  | [] => if pat.isEmpty then some 0 else none
  | c :: rest =>
    match rfindSub pat rest with
    | some i => some (i + 1)
    | none => if pat.isPrefixOf (c :: rest) then some 0 else none

/-- Fuelled worker for `replaceAll`; the fuel is an upper bound on the length
of the remaining input, so `replaceAll` below always runs to completion. -/
def replaceAllAux (pat rep : Str) : Nat → Str → Str
  | 0, s => s
  | _ + 1, [] => []
  | fuel + 1, c :: rest =>
    if pat ≠ [] ∧ pat.isPrefixOf (c :: rest) then
      rep ++ replaceAllAux pat rep fuel ((c :: rest).drop pat.length)
    else
      c :: replaceAllAux pat rep fuel rest

/-- Model of Rust `str::replace(pat, rep)`: replace every occurrence of `pat`,
scanning left to right without overlap.  (The engine only ever calls it with
the nonempty pattern `\x7bAUCTION_PRICE\x7d`; the degenerate empty pattern is
mapped to the identity.) -/
def replaceAll (pat rep s : Str) : Str :=
  replaceAllAux pat rep s.length s

/-- ASCII whitespace test used to model Rust `str::trim_start` on the ASCII
creatives handled by the rewriter. -/
def isWsChar (c : Char) : Bool :=
  c = ' ' || c = '\t' || c = '\n' || c = '\r'

/-- Model of Rust `str::trim_start`. -/
def trimStart (s : Str) : Str := s.dropWhile isWsChar

/-! ## An exact model of `f64`

`F64.val q` is a finite double holding the exact rational `q`; `F64.nan` is
the one point at which `partial_cmp` is undefined.  Arithmetic is exact: the
claims below never depend on rounding, only on comparability and on the sign
and identity of values. -/

inductive F64 where
  | nan : F64
  | val (q : ℚ) : F64
  deriving DecidableEq, Repr

/-- Model of Rust `f64::partial_cmp`: `None` exactly when a NaN is involved. -/
def F64.pcmp : F64 → F64 → Option Ordering
  | .val a, .val b =>
    some (if a < b then .lt else if b < a then .gt else .eq)
  | _, _ => none

/-- Exact model of `f64` multiplication (NaN-propagating). -/
def F64.mul : F64 → F64 → F64
  | .val a, .val b => .val (a * b)
  | _, _ => .nan

/-- The digit character of `d` (for `d < 10`). -/
def digitChar (d : Nat) : Char := Char.ofNat (48 + d)

/-- Fuelled base-10 digit rendering. -/
def natDigitsAux : Nat → Nat → Str
  | 0, _ => []
  | fuel + 1, n =>
    if n < 10 then [digitChar n]
    else natDigitsAux fuel (n / 10) ++ [digitChar (n % 10)]

/-- Base-10 rendering of a natural number. -/
def natDigits (n : Nat) : Str := natDigitsAux (n + 1) n

/-- Fuelled multiplicity of the factor `p` in `n`. -/
def factorMultAux (p : Nat) : Nat → Nat → Nat
  | 0, _ => 0
  | fuel + 1, n =>
    if 2 ≤ p ∧ n ≠ 0 ∧ n % p = 0 then factorMultAux p fuel (n / p) + 1 else 0

/-- Multiplicity of the prime factor `p` in `n`. -/
def factorMult (p n : Nat) : Nat := factorMultAux p n n

/-- Digits of `m` with a decimal point `k` places from the right (no point if
`k = 0`). -/
def decimalDigits (m k : Nat) : Str :=
  if k = 0 then natDigits m
  else
    let s := natDigits m
    let t := List.replicate (k + 1 - s.length) '0' ++ s
    t.take (t.length - k) ++ ['.'] ++ t.drop (t.length - k)

/-- Model of Rust's `Display` for `f64` (`to_string`).  A model value whose
denominator is of the form `2^a * 5^b` — which includes every value an actual
`f64` can take — is rendered as its exact decimal expansion, matching Rust's
shortest-roundtrip rendering on the model; other rationals (unreachable from
doubles) fall back to a `num/den` rendering.  Every claim below uses only that
the rendering of a non-NaN value is nonempty and consists of the characters
`0`-`9`, `.`, `-`, `/`. -/
def F64.display : F64 → Str
  | .nan => ['N', 'a', 'N']
  | .val q =>
    let sign : Str := if q < 0 then ['-'] else []
    let n := q.num.natAbs
    let d := q.den
    let k := max (factorMult 2 d) (factorMult 5 d)
    if 2 ^ factorMult 2 d * 5 ^ factorMult 5 d = d then
      sign ++ decimalDigits (n * 10 ^ k / d) k
    else
      sign ++ natDigits n ++ ['/'] ++ natDigits d

/-! ## JSON (model of the `serde_json` subset used by the rewriter)

`serde_json::Value` with the default feature set: objects are `BTreeMap`s,
i.e. key-sorted; parsing decodes escape sequences (`\uXXXX` included);
`to_string` emits compact JSON escaping only `"`, `\` and control characters.
Surrogate-pair escapes and float overflow are outside the model (absent from
all data considered here); numbers are kept exact as rationals. -/

inductive JsonValue where
  | null : JsonValue
  | bool (b : Bool) : JsonValue
  | num (q : ℚ) : JsonValue
  | str (s : Str) : JsonValue
  | arr (elems : List JsonValue) : JsonValue
  | obj (fields : List (Str × JsonValue)) : JsonValue
  deriving Repr

/-- JSON whitespace (space, tab, newline, carriage return), as in `serde_json`. -/
def skipWs (s : Str) : Str := s.dropWhile isWsChar

/-- Byte-wise (here: character-wise, the data is ASCII) lexicographic order on
strings, as used by `BTreeMap<String, _>`. -/
def strLt : Str → Str → Bool
  | a :: as, b :: bs =>
    if a.toNat = b.toNat then strLt as bs else decide (a.toNat < b.toNat)
  | [], bs => !bs.isEmpty
  | _ :: _, [] => false

/-- Model of `BTreeMap::insert` on a key-sorted association list (replaces an
existing binding). -/
def insertField (k : Str) (v : JsonValue) : List (Str × JsonValue) → List (Str × JsonValue)
  | [] => [(k, v)]
  | (k', v') :: rest =>
    if strLt k k' then (k, v) :: (k', v') :: rest
    else if k = k' then (k, v) :: rest
    else (k', v') :: insertField k v rest

/-- Hex digit value for string-escape parsing. -/
def hexDigitVal (c : Char) : Option Nat :=
  if '0' ≤ c ∧ c ≤ '9' then some (c.toNat - 48)
  else if 'a' ≤ c ∧ c ≤ 'f' then some (c.toNat - 87)
  else if 'A' ≤ c ∧ c ≤ 'F' then some (c.toNat - 55)
  else none

/-- Parse the body of a JSON string (after the opening quote), decoding escape
sequences; returns the decoded characters and the input after the closing
quote. -/
def parseStringBody : Str → Option (Str × Str)
  | [] => none
  | '"' :: rest => some ([], rest)
  | '\\' :: rest =>
    match rest with
    | 'u' :: h1 :: h2 :: h3 :: h4 :: rest' => do
      let a ← hexDigitVal h1
      let b ← hexDigitVal h2
      let c ← hexDigitVal h3
      let d ← hexDigitVal h4
      let (s, r) ← parseStringBody rest'
      pure (Char.ofNat (((a * 16 + b) * 16 + c) * 16 + d) :: s, r)
    | e :: rest' => do
      let c ←
        if e = '"' then some '"'
        else if e = '\\' then some '\\'
        else if e = '/' then some '/'
        else if e = 'b' then some (Char.ofNat 8)
        else if e = 'f' then some (Char.ofNat 12)
        else if e = 'n' then some '\n'
        else if e = 'r' then some '\r'
        else if e = 't' then some '\t'
        else none
      let (s, r) ← parseStringBody rest'
      pure (c :: s, r)
    | [] => none
  | c :: rest =>
    if c.toNat < 32 then none
    else do
      let (s, r) ← parseStringBody rest
      pure (c :: s, r)

/-- Digits to a natural number. -/
def digitsToNat (ds : Str) : Nat := ds.foldl (fun a c => a * 10 + (c.toNat - 48)) 0

/-- Digits of a JSON exponent, scaling the value accordingly. -/
def parseExpDigits (v : ℚ) (esign : Bool) (s : Str) : Option (ℚ × Str) :=
  let (eds, s2) := s.span (·.isDigit)
  if eds = [] then none
  else some (if esign then v / 10 ^ digitsToNat eds else v * 10 ^ digitsToNat eds, s2)

/-- Exponent tail of a JSON number (after `e`/`E`). -/
def parseExpTail (v : ℚ) : Str → Option (ℚ × Str)
  | '+' :: r => parseExpDigits v false r
  | '-' :: r => parseExpDigits v true r
  | r => parseExpDigits v false r

/-- Optional exponent of a JSON number. -/
def parseExpPart (v : ℚ) (s : Str) : Option (ℚ × Str) :=
  match s with
  | 'e' :: r => parseExpTail v r
  | 'E' :: r => parseExpTail v r
  | _ => some (v, s)

/-- Parse an unsigned JSON number (exact rational value). -/
def parseNumberCore (s : Str) : Option (ℚ × Str) :=
  let (ds, s2) := s.span (·.isDigit)
  if ds = [] then none
  else if 1 < ds.length ∧ ds.head? = some '0' then none
  else
    match s2 with
    | '.' :: r =>
      let (fs, s3) := r.span (·.isDigit)
      if fs = [] then none
      else parseExpPart ((digitsToNat ds : ℚ) + (digitsToNat fs : ℚ) / 10 ^ fs.length) s3
    | _ => parseExpPart (digitsToNat ds : ℚ) s2

/-- Parse a JSON number, optional leading minus included. -/
def parseNumber : Str → Option (ℚ × Str)
  | '-' :: r => (parseNumberCore r).map (fun p => (-p.1, p.2))
  | s => parseNumberCore s

/-- Comma-separated array elements (after at least one element is known to be
present); `pE` parses one value. -/
def parseElemsAux (pE : Str → Option (JsonValue × Str)) : Nat → Str → Option (List JsonValue × Str)
  | 0, _ => none
  | fuel + 1, s => do
    let (v, s1) ← pE s
    match skipWs s1 with
    | ',' :: s2 => do
      let (vs, s3) ← parseElemsAux pE fuel s2
      pure (v :: vs, s3)
    | ']' :: s2 => pure ([v], s2)
    | _ => none

/-- Comma-separated object members (after at least one member is known to be
present); `pE` parses one value. -/
def parseFieldsAux (pE : Str → Option (JsonValue × Str)) :
    Nat → Str → Option (List (Str × JsonValue) × Str)
  | 0, _ => none
  | fuel + 1, s =>
    match skipWs s with
    | '"' :: r => do
      let (k, r1) ← parseStringBody r
      match skipWs r1 with
      | ':' :: r2 => do
        let (v, r3) ← pE r2
        match skipWs r3 with
        | ',' :: r4 => do
          let (fs, r5) ← parseFieldsAux pE fuel r4
          pure ((k, v) :: fs, r5)
        | '\x7d' :: r4 => pure ([(k, v)], r4)
        | _ => none
      | _ => none
    | _ => none

/-- Fuelled recursive-descent parser for one JSON value (the fuel dominates the
nesting depth and is instantiated from the input length). -/
def parseJsonValueAux : Nat → Str → Option (JsonValue × Str)
  | 0, _ => none
  | fuel + 1, s =>
    match skipWs s with
    | [] => none
    | c :: rest =>
      if c = 'n' then
        match rest with
        | 'u' :: 'l' :: 'l' :: r => some (.null, r)
        | _ => none
      else if c = 't' then
        match rest with
        | 'r' :: 'u' :: 'e' :: r => some (.bool true, r)
        | _ => none
      else if c = 'f' then
        match rest with
        | 'a' :: 'l' :: 's' :: 'e' :: r => some (.bool false, r)
        | _ => none
      else if c = '"' then (parseStringBody rest).map (fun p => (.str p.1, p.2))
      else if c = '[' then
        match skipWs rest with
        | ']' :: r => some (.arr [], r)
        | r => (parseElemsAux (parseJsonValueAux fuel) fuel r).map (fun p => (.arr p.1, p.2))
      else if c = '\x7b' then
        match skipWs rest with
        | '\x7d' :: r => some (.obj [], r)
        | r =>
          (parseFieldsAux (parseJsonValueAux fuel) fuel r).map
            (fun p => (.obj (p.1.foldl (fun m kv => insertField kv.1 kv.2 m) []), p.2))
      else (parseNumber (c :: rest)).map (fun p => (.num p.1, p.2))

/-- Model of `serde_json::from_str::<Value>`: one value, surrounding whitespace
allowed, end of input required. -/
def parseJson (s : Str) : Option JsonValue :=
  match parseJsonValueAux (2 * s.length + 16) s with
  | some (v, rest) => if skipWs rest = [] then some v else none
  | none => none

/-- Lower-case hex digit. -/
def hexChar (n : Nat) : Char := if n < 10 then digitChar n else Char.ofNat (87 + n)

/-- `serde_json` string escaping: `"`, `\` and control characters only. -/
def jsonEscapeChar (c : Char) : Str :=
  if c = '"' then ['\\', '"']
  else if c = '\\' then ['\\', '\\']
  else if c = Char.ofNat 8 then ['\\', 'b']
  else if c = Char.ofNat 9 then ['\\', 't']
  else if c = Char.ofNat 10 then ['\\', 'n']
  else if c = Char.ofNat 12 then ['\\', 'f']
  else if c = Char.ofNat 13 then ['\\', 'r']
  else if c.toNat < 32 then ['\\', 'u', '0', '0', hexChar (c.toNat / 16), hexChar (c.toNat % 16)]
  else [c]

/-- Serialize a JSON string literal. -/
def serializeString (s : Str) : Str :=
  '"' :: s.foldr (fun c acc => jsonEscapeChar c ++ acc) ['"']

/-- Fuelled compact serializer, model of `serde_json::Value::to_string` (the
fuel dominates the value depth and is instantiated generously at call sites). -/
def serializeJsonAux : Nat → JsonValue → Str
  | 0, _ => []
  | fuel + 1, v =>
    match v with
    | .null => "null".toList
    | .bool true => "true".toList
    | .bool false => "false".toList
    | .num q => F64.display (.val q)
    | .str s => serializeString s
    | .arr es => '[' :: List.intercalate [','] (es.map (serializeJsonAux fuel)) ++ [']']
    | .obj fs =>
      '\x7b' :: List.intercalate [',']
        (fs.map (fun kv => serializeString kv.1 ++ ':' :: serializeJsonAux fuel kv.2)) ++ ['\x7d']

/-! ## The creative rewriter (`inject_ssp_tracking`, `src/bidding/engine.rs`) -/

/-- The literal creative macro token. -/
def auctionPriceMacro : Str := "\x7bAUCTION_PRICE\x7d".toList

/-- Format signal for the banner branch. -/
def htmlPat : Str := "<html".toList

/-- Insertion anchor of the banner branch. -/
def bodyClosePat : Str := "</body>".toList

/-- Format signal for the video branch. -/
def vastPat : Str := "<VAST".toList

/-- Insertion anchor of the video branch. -/
def inLinePat : Str := "<InLine>".toList

/-- ADX tracking pixel appended to HTML creatives. -/
def htmlSspTag : Str :=
  "<img src=\"http://tk.rust-adx.com/impression?price=\x7bAUCTION_PRICE\x7d\" style=\"display:none;\" />".toList

/-- ADX impression element inserted into VAST creatives. -/
def vastSspTag : Str :=
  "<Impression><![CDATA[http://tk.rust-adx.com/impression?price=\x7bAUCTION_PRICE\x7d]]></Impression>".toList

/-- Impression-tracking URL inserted into native-JSON creatives. -/
def sspImpressionUrl : Str := "http://tk.rust-adx.com/impression?price=\x7bAUCTION_PRICE\x7d".toList

/-- Click-tracking URL inserted into native-JSON creatives. -/
def sspClickUrl : Str := "http://tk.rust-adx.com/click?price=\x7bAUCTION_PRICE\x7d".toList

/-- Model of `inject_ssp_tracking` (`src/bidding/engine.rs` lines 14-58):
format-aware injection of the ADX tracking markup, which itself keeps the
`\x7bAUCTION_PRICE\x7d` placeholder. -/
def inject_ssp_tracking (adm : Str) : Str :=
  if strContains htmlPat adm then
    match rfindSub bodyClosePat adm with
    | some pos => adm.take pos ++ htmlSspTag ++ adm.drop pos
    | none => adm ++ htmlSspTag
  else if strContains vastPat adm then
    match findSub inLinePat adm with
    | some pos =>
      adm.take (pos + inLinePat.length) ++ vastSspTag ++ adm.drop (pos + inLinePat.length)
    | none => adm
  else if (trimStart adm).head? = some '\x7b' then
    match parseJson adm with
    | some v =>
      let v' :=
        match v with
        | .obj fs =>
          JsonValue.obj
            (insertField "ssp_click_tracking".toList (.str sspClickUrl)
              (insertField "ssp_impression_tracking".toList (.str sspImpressionUrl) fs))
        | other => other
      serializeJsonAux (adm.length + 8) v'
    | none => adm
  else adm

/-! ## OpenRTB data model (`src/openrtb/request.rs`, `src/openrtb/response.rs`)

The request stores its big blocks lazily as raw JSON in the source; here `imp`
is modelled directly as its parsed form (the only part the claims consult) and
the remaining blocks as opaque JSON values. -/

structure Bid where
  id : Str
  impid : Str
  price : F64
  nurl : Option Str := none
  adm : Option Str := none
  adid : Option Str := none
  adomain : Option (List Str) := none
  cid : Option Str := none
  crid : Option Str := none
  cat : Option (List Str) := none
  attr : Option (List Int) := none
  dealid : Option Str := none
  h : Option Int := none
  w : Option Int := none
  ext : Option JsonValue := none
  deriving Repr

structure SeatBid where
  bid : List Bid
  seat : Option Str := none
  group : Option Int := none
  deriving Repr

structure BidResponse where
  id : Str
  seatbid : List SeatBid
  bidid : Option Str := none
  cur : Option Str := none
  customdata : Option Str := none
  nbr : Option Int := none
  deriving Repr

structure ImpDetail where
  id : Str
  bidfloor : Option F64 := none
  banner : Option JsonValue := none
  video : Option JsonValue := none
  audio : Option JsonValue := none
  native : Option JsonValue := none
  pmp : Option JsonValue := none
  deriving Repr

structure BidRequest where
  id : Str
  imp : List ImpDetail
  site : Option JsonValue := none
  app : Option JsonValue := none
  device : Option JsonValue := none
  user : Option JsonValue := none
  source : Option JsonValue := none
  regs : Option JsonValue := none
  test : Option Int := none
  -- the source field `at` (auction type); `at` is a Lean keyword
  at_ : Option Int := none
  tmax : Option Nat := none
  wseat : Option (List Str) := none
  bseat : Option (List Str) := none
  allimps : Option Int := none
  cur : Option (List Str) := none
  wlang : Option (List Str) := none
  bcat : Option (List Str) := none
  badv : Option (List Str) := none
  deriving Repr

/-! ## Catalog data (`src/model/dsp.rs`, `src/model/placements.rs`, `src/model/ssp.rs`) -/

structure Demand where
  id : Nat
  name : Str
  url : Str
  status : Bool
  timeout : Option Nat := none
  deriving Repr, DecidableEq

/-- Model of `DemandManager::active_demands` on a catalog snapshot (the
`HashMap` iteration is abstracted as a list). -/
def active_demands (demands : List Demand) : List Demand := demands.filter (·.status)

inductive AdType where
  | native : AdType
  | banner : AdType
  | video : AdType
  deriving Repr, DecidableEq

structure SspPlacement where
  ssp_id : Nat
  ssp_uuid : Str
  placement_id : Str
  ad_type : AdType
  update_time : Nat
  status : Nat
  deriving Repr

structure Ssp where
  id : Nat
  uuid : Str
  name : Str
  qps : Nat
  deriving Repr

/-! ## DSP client (`src/bidding/dsp_client.rs`)

The network RPC itself is I/O; its per-demand result is abstracted as an input
(`DspNetResult` plus measured elapsed milliseconds).  Everything after the
`await` — error classification, top-price extraction, and the final sort — is
embedded from the source. -/

/-- Result of one DSP RPC before classification. -/
inductive DspNetResult where
  | success (resp : BidResponse) : DspNetResult
  | jsonParseError : DspNetResult
  | invalidResponse : DspNetResult
  | timeout : DspNetResult
  deriving Repr

/-- The tuple `(dsp_id, dsp_url, top_price, BidResponse, status, elapsed_ms)`
returned for each demand by `fetch_bids`. -/
structure DspOutcome where
  dsp_id : Nat
  dsp_url : Str
  top_price : F64
  response : BidResponse
  status : Str
  elapsed_ms : Nat
  deriving Repr

/-- The empty `BidResponse` built for failed RPCs. -/
def emptyBidResponse : BidResponse :=
  { id := [], seatbid := [] }

/-- Model of Rust `Iterator::max_by` (returns the last of several maxima). -/
def maxByLast (cmp : α → α → Ordering) (l : List α) : Option α :=
  l.foldl
    (fun acc x =>
      match acc with
      | none => some x
      | some a => if cmp a x = .gt then some a else some x)
    none

/-- Highest bid price over all bids of a response, `0.0` if there is none
(`partial_cmp(..).unwrap_or(Equal)` inside `max_by`). -/
def topPrice (resp : BidResponse) : F64 :=
  match maxByLast (fun a b => (F64.pcmp a b).getD .eq)
      (resp.seatbid.foldr (fun sb acc => sb.bid.map Bid.price ++ acc) []) with
  | some p => p
  | none => .val 0

/-- Effective deadline of one DSP call:
`Demand.timeout`, else `BidRequest.tmax`, else 250 ms. -/
def effectiveTimeoutMs (d : Demand) (req : BidRequest) : Nat :=
  d.timeout.getD (req.tmax.getD 250)

/-- Classification of one RPC into the outcome tuple. -/
def mkOutcome (d : Demand) (r : DspNetResult × Nat) : DspOutcome :=
  match r.1 with
  | .success resp => ⟨d.id, d.url, topPrice resp, resp, "success".toList, r.2⟩
  | .jsonParseError => ⟨d.id, d.url, .val 0, emptyBidResponse, "json_parse_error".toList, r.2⟩
  | .invalidResponse => ⟨d.id, d.url, .val 0, emptyBidResponse, "invalid_response".toList, r.2⟩
  | .timeout => ⟨d.id, d.url, .val 0, emptyBidResponse, "timeout".toList, r.2⟩

/-- The gathered outcome list before the final sort: one entry per enabled
demand, in the order of the demand list (`join_all` keeps task order). -/
def fetchOutcomes (demands : List Demand) (net : Demand → DspNetResult × Nat) :
    List DspOutcome :=
  (demands.filter (·.status)).map (fun d => mkOutcome d (net d))

/-- Rust's stable `sort_by` with a total comparator, modelled as Mathlib's
stable insertion sort (any two stable sorts agree under a total preorder). -/
def sort_by (cmp : α → α → Ordering) (l : List α) : List α :=
  l.insertionSort (fun a b => cmp a b ≠ .gt)

/-- The comparator `|a, b| b.2.partial_cmp(&a.2).unwrap_or(Equal)` of
`fetch_bids` (top price descending, NaN compares equal). -/
def cmpByTopPriceDesc (a b : DspOutcome) : Ordering :=
  (F64.pcmp b.top_price a.top_price).getD .eq

/-- Model of `DspClient::fetch_bids`: gather one classified outcome per enabled
demand, then sort by top price descending. -/
def fetch_bids (demands : List Demand) (net : Demand → DspNetResult × Nat) :
    List DspOutcome :=
  sort_by cmpByTopPriceDesc (fetchOutcomes demands net)

/-! ## Panicking sorts

The engine sorts with `partial_cmp(..).unwrap()`: a comparator returning
`none` models the `unwrap` panic, so these sorts return `Option`. -/

/-- `orderedInsert` with a partial comparator; `none` models a comparator
panic. -/
def orderedInsertP (cmp : α → α → Option Ordering) (x : α) : List α → Option (List α)
  | [] => some [x]
  | y :: ys =>
    match cmp x y with
    | none => none
    | some o =>
      if o ≠ .gt then some (x :: y :: ys)
      else (orderedInsertP cmp x ys).map (y :: ·)

/-- Stable insertion sort with a partial comparator. -/
def sortByP (cmp : α → α → Option Ordering) : List α → Option (List α)
  | [] => some []
  | x :: xs => (sortByP cmp xs).bind (orderedInsertP cmp x)

/-! ## Auction engine (`src/bidding/engine.rs`) -/

/-- The three sensitive keywords. -/
def sensitiveKeywords : List Str :=
  ["forbidden".toList, "banned".toList, "restricted".toList]

/-- Model of `contains_sensitive_content` (engine lines 213-221): the bid's
`adm` and `crid`, joined by `format!("\x7b\x7d \x7b\x7d", ..)` — note the
space — contain one of the keywords. -/
def contains_sensitive_content (bid : Bid) : Bool :=
  let content := bid.adm.getD [] ++ [' '] ++ bid.crid.getD []
  sensitiveKeywords.any (fun w => strContains w content)

/-- One record of the engine's `dsp_details` vector: either the per-outcome
JSON record, or the `\x7boriginal_price, final_price\x7d` record pushed for a
winning auction. -/
inductive DspDetail where
  | outcome (dsp_id : Nat) (url : Str) (bid_price : F64) (result : Str)
      (inquiry_time_ms : Nat) (failure_reason : Option Str) : DspDetail
  | priceInfo (original_price final_price : F64) : DspDetail
  deriving Repr

/-- One entry of the `failed_dsp_logs` vector. -/
inductive FailedDspLog where
  | nbr (dsp_id : Nat) (url : Str) (nbr : Int) (result : Str)
      (inquiry_time_ms : Nat) : FailedDspLog
  | noSeatbid (dsp_id : Nat) (url : Str) (result : Str)
      (inquiry_time_ms : Nat) : FailedDspLog
  deriving Repr

/-- Structured model of the ERROR/WARN log lines the engine emits. -/
inductive LogRecord where
  | dspInquiryFailed (request_id : Str) (details : List FailedDspLog) : LogRecord
  | adxInquiryFailed (request_id : Str) (reason : Str) : LogRecord
  | bidRejected (request_id : Str) (bid_id : Str) (reason : Str) : LogRecord
  deriving Repr

/-- Model of the panics reachable from the embedded request path. -/
inductive Panic where
  | sortUnwrapNone : Panic
  | unwrapEmpty : Panic
  | expectFailed (msg : Str) : Panic
  deriving Repr, DecidableEq

/-- Result of one engine run: the optional winning response, and the
`adx_inquiry_result` / `dsp_call_details` fields of the final aggregated INFO
line, plus the ERROR/WARN records emitted along the way. -/
structure EngineResult where
  response : Option BidResponse
  adx_result : Str
  dsp_details : List DspDetail
  logs : List LogRecord
  deriving Repr

/-- The `dsp_details` record built for one outcome (`failure_reason` null on
success). -/
def outcomeDetail (o : DspOutcome) : DspDetail :=
  .outcome o.dsp_id o.dsp_url o.top_price o.status o.elapsed_ms
    (if o.status = "success".toList then none else some o.status)

/-- The `failed_dsp_logs` entry of one outcome, if it is a failed DSP
(`nbr` set, or empty `seatbid`). -/
def failedLogOf (o : DspOutcome) : Option FailedDspLog :=
  match o.response.nbr with
  | some n => some (.nbr o.dsp_id o.dsp_url n o.status o.elapsed_ms)
  | none =>
    if o.response.seatbid.isEmpty then
      some (.noSeatbid o.dsp_id o.dsp_url o.status o.elapsed_ms)
    else none

/-- An outcome that reaches `valid_responses`: no `nbr`, nonempty `seatbid`. -/
def isValidOutcome (o : DspOutcome) : Bool :=
  o.response.nbr.isNone && !o.response.seatbid.isEmpty

/-- The `valid_responses` vector (response paired with its top price), in
gather order. -/
def validOf (outcomes : List DspOutcome) : List (BidResponse × F64) :=
  (outcomes.filter isValidOutcome).map (fun o => (o.response, o.top_price))

/-- All bids of the price-sorted valid responses, flattened in order. -/
def flattenBids (rs : List (BidResponse × F64)) : List Bid :=
  rs.foldr (fun r acc => r.1.seatbid.foldr (fun sb acc2 => sb.bid ++ acc2) acc) []

/-- Comparator of `valid_responses.sort_by` (engine line 136):
`b.1.partial_cmp(&a.1).unwrap()`. -/
def cmpValidDesc (a b : BidResponse × F64) : Option Ordering := F64.pcmp b.2 a.2

/-- Comparator of `checked_bids.sort_by` (engine line 165):
`b.price.partial_cmp(&a.price).unwrap()`. -/
def cmpBidPriceDesc (a b : Bid) : Option Ordering := F64.pcmp b.price a.price

/-- The adm rewrite applied to the winner (engine lines 171-177): substitute
the macro with the rendered final price in the DSP-supplied adm, then inject
the ADX tracking. -/
def rewriteWinnerAdm (final_price : F64) (adm : Str) : Str :=
  inject_ssp_tracking (replaceAll auctionPriceMacro (F64.display final_price) adm)

/-- Model of `process_bid_request` (engine lines 65-210).  The outcome list of
the fan-out is an input (it is produced by `fetch_bids`); the aggregated INFO
line is represented by the `EngineResult` fields. -/
def process_bid_request (req : BidRequest) (bid_responses : List DspOutcome) :
    Except Panic EngineResult :=
  let dsp_details := bid_responses.map outcomeDetail
  let failed_dsp_logs := bid_responses.filterMap failedLogOf
  let valid_responses := validOf bid_responses
  let logs0 : List LogRecord :=
    if failed_dsp_logs.isEmpty then [] else [.dspInquiryFailed req.id failed_dsp_logs]
  if valid_responses.isEmpty then
    .ok ⟨none, "failed".toList, dsp_details,
      logs0 ++ [.adxInquiryFailed req.id "all_dsp_failed".toList]⟩
  else
    match sortByP cmpValidDesc valid_responses with
    | none => .error .sortUnwrapNone
    | some sorted_valid =>
      let all_bids := flattenBids sorted_valid
      let rejected := all_bids.filter contains_sensitive_content
      let checked_bids := all_bids.filter (fun b => !contains_sensitive_content b)
      let logs1 := logs0 ++
        rejected.map (fun b => LogRecord.bidRejected req.id b.id "contains_sensitive_content".toList)
      if checked_bids.isEmpty then
        .ok ⟨none, "failed".toList, dsp_details,
          logs1 ++ [.adxInquiryFailed req.id "all_bids_filtered".toList]⟩
      else
        match sortByP cmpBidPriceDesc checked_bids with
        | none => .error .sortUnwrapNone
        | some sorted_bids =>
          match sorted_bids with
          | [] => .error .unwrapEmpty
          | w :: _ =>
            let original_price := w.price
            let final_price := F64.mul original_price (.val (4 / 5))
            let w' := { w with adm := w.adm.map (rewriteWinnerAdm final_price) }
            .ok ⟨some ⟨req.id, [⟨[w'], some [], some 0⟩], none, some "USD".toList, none, none⟩,
              "success".toList,
              dsp_details ++ [.priceInfo original_price final_price],
              logs1⟩

/-! ## HTTP front (`src/api/handlers.rs`)

The engine invocation inside the handler is I/O (and the call site passes a
`Context` where the current engine signature expects a `BidRequest`), so the
engine's produced response is abstracted as the `engine_response` input; the
placement lookup before it and the 200/204 dispatch after it are embedded from
the source. -/

/-- The skeletal no-fill response (`seatbid = []`, `cur = "USD"`, `nbr = 3`). -/
def skeletalResponse (req : BidRequest) : BidResponse :=
  ⟨req.id, [], none, some "USD".toList, none, some 3⟩

/-- Model of `handle_openrtb_request`: SSP-placement lookup (whose failure is
an `expect` panic in the source, lines 25-28), then the 200 / 204 dispatch on
the engine's response (lines 51-77).  Status codes are the literal numbers. -/
def handle_openrtb_request (ssp_placements : List SspPlacement) (ssp_uuid : Str)
    (bid_request : BidRequest) (engine_response : Option BidResponse) :
    Except Panic (Nat × BidResponse) :=
  match ssp_placements.find? (fun sp => sp.ssp_uuid == ssp_uuid) with
  | none => .error (.expectFailed "No matching SSP placement found".toList)
  | some _ =>
    match engine_response with
    | some resp =>
      if !resp.seatbid.isEmpty then .ok (200, resp)
      else .ok (204, skeletalResponse bid_request)
    | none => .ok (204, skeletalResponse bid_request)

/-! ## Spec-side reference definitions

Definitions following the specification's words, for comparison with the
source-derived definitions above. -/

/-- The spec's wording for the banner branch: the pixel is "appended after the
final `</body>` when present, else at end". -/
def specInjectHtmlAfterBody (adm : Str) : Str :=
  match rfindSub bodyClosePat adm with
  | some pos =>
    adm.take (pos + bodyClosePat.length) ++ htmlSspTag ++ adm.drop (pos + bodyClosePat.length)
  | none => adm ++ htmlSspTag

/-- The spec's wording for sensitive filtering: "the concatenation of `adm`
and `crid`" (no separator) contains a keyword. -/
def specSensitiveConcat (bid : Bid) : Bool :=
  sensitiveKeywords.any (fun w => strContains w (bid.adm.getD [] ++ bid.crid.getD []))

/-! ## Helper definitions for the statements -/

/-- The characters `F64.display` can emit for a non-NaN value. -/
def priceChars : Str := "0123456789.-/".toList

/-- The rational carried by a finite `F64` (0 at NaN); only used on non-NaN
values. -/
def qOf : F64 → ℚ
  | .nan => 0
  | .val q => q

/-- Descending comparator by an `F64` key with `unwrap_or(Equal)`, the common
shape of the sort comparators of `fetch_bids`. -/
def keyCmp (key : α → F64) (a b : α) : Ordering :=
  (F64.pcmp (key b) (key a)).getD .eq

/-- The winner as returned to the SSP: same bid, adm substituted and
tracking-injected with the 20 %-markdown final price (the `price` field is
untouched). -/
def winnerRewrite (w : Bid) : Bid :=
  { w with adm := w.adm.map (rewriteWinnerAdm (F64.mul w.price (.val (4 / 5)))) }

/-! ## Claim fixtures (concrete inputs for counterexamples and witnesses) -/

/-- An HTML creative ending in `</body></html>`. -/
def c2Adm : Str := "<html><body>ad</body></html>".toList

/-- A catalog with one placement whose UUID will not match. -/
def c3Placement : SspPlacement :=
  ⟨1, "aaaa-bbbb".toList, "p1".toList, .banner, 0, 1⟩

/-- A well-formed request arriving with an unknown `ssp_uuid`. -/
def c3Request : BidRequest :=
  { id := "R3".toList, imp := [{ id := "i1".toList }] }

/-- Demand list for the gatherer-order witness: two enabled, one disabled. -/
def c9Demands : List Demand :=
  [⟨1, "a_dsp".toList, "u1".toList, true, none⟩,
   ⟨2, "b_dsp".toList, "u2".toList, true, none⟩,
   ⟨3, "c_dsp".toList, "u3".toList, false, none⟩]

/-- A successful DSP response carrying one bid at price 2. -/
def c9DspResponse : BidResponse :=
  { id := "r9".toList,
    seatbid := [{ bid := [{ id := "b9".toList, impid := "i1".toList, price := .val 2 }] }] }

/-- Network behaviour for the gatherer witness: demand 1 succeeds, the rest
time out. -/
def c9Net : Demand → DspNetResult × Nat := fun d =>
  if d.id = 1 then (.success c9DspResponse, 5) else (.timeout, 7)

/-- Request used by several engine witnesses. -/
def c10Request : BidRequest :=
  { id := "RX".toList, imp := [{ id := "i1".toList }], tmax := some 250 }

/-- A successful outcome with one clean bid at price 3/2. -/
def c10Outcome : DspOutcome :=
  ⟨7, "u7".toList, .val (3 / 2),
    { id := "r10".toList,
      seatbid := [{ bid := [{ id := "b10".toList, impid := "i1".toList, price := .val (3 / 2) }] }] },
    "success".toList, 12⟩

/-- Bid of the pricing scenario: price 2.5, no adm. -/
def c1Bid : Bid := { id := "b1".toList, impid := "i1".toList, price := .val (5 / 2) }

/-- The DSP response carrying `c1Bid`. -/
def c1DspResponse : BidResponse := { id := "r1".toList, seatbid := [{ bid := [c1Bid] }] }

/-- A successful outcome for the pricing scenario. -/
def c1Outcome : DspOutcome :=
  ⟨1, "http://dsp1".toList, .val (5 / 2), c1DspResponse, "success".toList, 10⟩

/-- The originating request of the pricing scenario. -/
def c1Request : BidRequest := { id := "R1".toList, imp := [{ id := "i1".toList }] }

/-- The response the engine returns for the pricing scenario. -/
def c1WinResponse : BidResponse :=
  ⟨"R1".toList, [⟨[c1Bid], some [], some 0⟩], none, some "USD".toList, none, none⟩

/-- The engine result of the pricing scenario. -/
def c1EngineRes : EngineResult :=
  ⟨some c1WinResponse, "success".toList,
    [outcomeDetail c1Outcome, .priceInfo (.val (5 / 2)) (F64.mul (.val (5 / 2)) (.val (4 / 5)))],
    []⟩

/-- A bid answering an impression id absent from the request. -/
def c5Bid : Bid := { id := "b5".toList, impid := "bogus".toList, price := .val 1 }

/-- The DSP response carrying `c5Bid`. -/
def c5DspResponse : BidResponse := { id := "r5".toList, seatbid := [{ bid := [c5Bid] }] }

/-- A successful outcome carrying the mismatched-impid bid. -/
def c5Outcome : DspOutcome :=
  ⟨2, "http://dsp5".toList, .val 1, c5DspResponse, "success".toList, 9⟩

/-- The originating request (its only impression id is `i1`). -/
def c5Request : BidRequest := { id := "R5".toList, imp := [{ id := "i1".toList }] }

/-- A placement matching the query uuid `u-5`. -/
def c5Placement : SspPlacement := ⟨1, "u-5".toList, "p5".toList, .banner, 0, 1⟩

/-- The 200 response built from the mismatched-impid winner. -/
def c5WinResponse : BidResponse :=
  ⟨"R5".toList, [⟨[c5Bid], some [], some 0⟩], none, some "USD".toList, none, none⟩

/-- The engine result of the mismatched-impid scenario. -/
def c5EngineRes : EngineResult :=
  ⟨some c5WinResponse, "success".toList,
    [outcomeDetail c5Outcome, .priceInfo (.val 1) (F64.mul (.val 1) (.val (4 / 5)))],
    []⟩

/-- Bid of the dsp-details-length scenario. -/
def c6Bid : Bid := { id := "b6".toList, impid := "i1".toList, price := .val 1 }

/-- The DSP response carrying `c6Bid`. -/
def c6DspResponse : BidResponse := { id := "r6".toList, seatbid := [{ bid := [c6Bid] }] }

/-- One enabled demand. -/
def c6Demand : Demand := ⟨1, "a_dsp".toList, "u6".toList, true, none⟩

/-- Network behaviour: the one demand succeeds with `c6DspResponse`. -/
def c6Net : Demand → DspNetResult × Nat := fun _ => (.success c6DspResponse, 3)

/-- Request of the dsp-details-length scenario. -/
def c6Request : BidRequest := { id := "R6".toList, imp := [{ id := "i1".toList }] }

/-- The gathered outcome of the one demand. -/
def c6Outcome : DspOutcome := mkOutcome c6Demand (.success c6DspResponse, 3)

/-- The winning response of the dsp-details-length scenario. -/
def c6WinResponse : BidResponse :=
  ⟨"R6".toList, [⟨[c6Bid], some [], some 0⟩], none, some "USD".toList, none, none⟩

/-- The engine result of the dsp-details-length scenario: two dsp-details
records for one active demand. -/
def c6EngineRes : EngineResult :=
  ⟨some c6WinResponse, "success".toList,
    [outcomeDetail c6Outcome, .priceInfo (.val 1) (F64.mul (.val 1) (.val (4 / 5)))],
    []⟩

/-- The engine result on an empty demand list (no-DSP auction). -/
def c6EmptyRes : EngineResult :=
  ⟨none, "failed".toList, [], [.adxInquiryFailed "R6".toList "all_dsp_failed".toList]⟩

/-- A bid whose `adm` ends and whose `crid` starts so that only the
separator-free concatenation contains `forbidden`. -/
def c8SpecBid : Bid :=
  { id := "b8".toList, impid := "i1".toList, price := .val 1,
    adm := some "forbi".toList, crid := some "dden".toList }

/-- The DSP response carrying `c8SpecBid`. -/
def c8SpecDspResponse : BidResponse := { id := "r8".toList, seatbid := [{ bid := [c8SpecBid] }] }

/-- A successful outcome carrying `c8SpecBid`. -/
def c8SpecOutcome : DspOutcome :=
  ⟨3, "http://dsp8".toList, .val 1, c8SpecDspResponse, "success".toList, 4⟩

/-- Request of the sensitive-filter scenario. -/
def c8SpecRequest : BidRequest := { id := "R8".toList, imp := [{ id := "i1".toList }] }

/-- The winning response of the sensitive-filter scenario: the bid the spec's
wording would reject is returned as the winner. -/
def c8SpecWinResponse : BidResponse :=
  ⟨"R8".toList, [⟨[c8SpecBid], some [], some 0⟩], none, some "USD".toList, none, none⟩

/-- The engine result of the sensitive-filter scenario. -/
def c8SpecEngineRes : EngineResult :=
  ⟨some c8SpecWinResponse, "success".toList,
    [outcomeDetail c8SpecOutcome, .priceInfo (.val 1) (F64.mul (.val 1) (.val (4 / 5)))],
    []⟩

/-- A bid every part of which is flagged sensitive (`crid` holds `banned`). -/
def c8FilteredBid : Bid :=
  { id := "b8f".toList, impid := "i1".toList, price := .val 1,
    crid := some "banned-creative-7".toList }

/-- The DSP response carrying only the sensitive bid. -/
def c8FilteredDspResponse : BidResponse :=
  { id := "r8f".toList, seatbid := [{ bid := [c8FilteredBid] }] }

/-- A successful outcome whose only bid is sensitive. -/
def c8FilteredOutcome : DspOutcome :=
  ⟨4, "http://dsp8f".toList, .val 1, c8FilteredDspResponse, "success".toList, 6⟩

/-- A native-JSON creative whose string value spells the macro through the
escape `\u007b`: it contains no literal macro token. -/
def c4Adm : Str := "\x7b\"a\":\"\\u007bAUCTION_PRICE\x7d\"\x7d".toList

/-- What the JSON round-trip makes of `c4Adm`: the escape is decoded, so the
DSP-originated field `a` now carries the literal macro token. -/
def c4AdmOut : Str :=
  "\x7b\"a\":\"\x7bAUCTION_PRICE\x7d\",\"ssp_click_tracking\":\"http://tk.rust-adx.com/click?price=\x7bAUCTION_PRICE\x7d\",\"ssp_impression_tracking\":\"http://tk.rust-adx.com/impression?price=\x7bAUCTION_PRICE\x7d\"\x7d".toList

/-- An HTML creative carrying the macro, for the macro-ordering witness. -/
def c4WitnessAdm : Str := "<html><body>x \x7bAUCTION_PRICE\x7d</body></html>".toList

/-! ## Lemmas -/

/-- `strContains` decides substring occurrence. -/
theorem strContains_iff {pat s : Str} : strContains pat s = true ↔ pat <:+: s := by
  induction s with
  | nil =>
    simp [strContains, List.isEmpty_iff, List.infix_nil]
  | cons c rest ih =>
    simp only [strContains, Bool.or_eq_true, List.isPrefixOf_iff_prefix, ih,
      List.infix_cons_iff]

/-- `strContains` is false exactly on non-occurrence. -/
theorem strContains_eq_false_iff {pat s : Str} : strContains pat s = false ↔ ¬ pat <:+: s := by
  rw [← strContains_iff]
  cases h : strContains pat s <;> simp

/-- A nonempty prefix of the output of `replaceAllAux` whose characters avoid
the replacement string is already a prefix of the input. -/
theorem prefix_of_prefix_replaceAllAux {pat rep : Str} (hrep : rep ≠ []) :
    ∀ (fuel : Nat) (s q : Str), s.length ≤ fuel → q ≠ [] → (∀ c ∈ q, c ∉ rep) →
      q <+: replaceAllAux pat rep fuel s → q <+: s := by
  intro fuel
  induction fuel with
  | zero =>
    intro s q hs hq _ hpre
    obtain rfl : s = [] := List.length_eq_zero.mp (Nat.le_zero.mp hs)
    simp only [replaceAllAux] at hpre
    exact absurd (List.prefix_nil.mp hpre) hq
  | succ fuel ih =>
    intro s q hs hq hqchars hpre
    cases s with
    | nil =>
      simp only [replaceAllAux] at hpre
      exact absurd (List.prefix_nil.mp hpre) hq
    | cons c rest =>
      simp only [replaceAllAux] at hpre
      by_cases hm : pat ≠ [] ∧ pat.isPrefixOf (c :: rest) = true
      · rw [if_pos (by simpa using hm)] at hpre
        cases rep with
        | nil => exact absurd rfl hrep
        | cons d rep' =>
          cases q with
          | nil => exact absurd rfl hq
          | cons e q' =>
            rw [List.cons_append, List.cons_prefix_cons] at hpre
            obtain ⟨heq, -⟩ := hpre
            subst heq
            exact absurd (List.mem_cons_self _ _) (hqchars _ (List.mem_cons_self _ _))
      · rw [if_neg (by simpa using hm)] at hpre
        cases q with
        | nil => exact absurd rfl hq
        | cons e q' =>
          rw [List.cons_prefix_cons] at hpre
          obtain ⟨rfl, hpre'⟩ := hpre
          by_cases hq' : q' = []
          · subst hq'
            exact List.cons_prefix_cons.mpr ⟨rfl, List.nil_prefix⟩
          · have hrest : rest.length ≤ fuel := by
              simp only [List.length_cons] at hs
              omega
            have := ih rest q' hrest hq'
              (fun x hx => hqchars x (List.mem_cons_of_mem _ hx)) hpre'
            exact List.cons_prefix_cons.mpr ⟨rfl, this⟩

/-- An occurrence of a nonempty pattern in an append touches the left part
through one of its characters or lies in the right part. -/
theorem infix_append_cases {pat : Str} (hpat : pat ≠ []) :
    ∀ (a b : Str), pat <:+: a ++ b → (∃ c ∈ a, c ∈ pat) ∨ pat <:+: b := by
  intro a
  induction a with
  | nil => intro b h; exact Or.inr (by simpa using h)
  | cons x a' ih =>
    intro b h
    rw [List.cons_append, List.infix_cons_iff] at h
    cases h with
    | inl hpre =>
      cases pat with
      | nil => exact absurd rfl hpat
      | cons p0 pat' =>
        rw [List.cons_prefix_cons] at hpre
        exact Or.inl ⟨x, List.mem_cons_self x a', hpre.1 ▸ List.mem_cons_self p0 pat'⟩
    | inr hinf =>
      rcases ih b hinf with ⟨c, hc, hcp⟩ | h2
      · exact Or.inl ⟨c, List.mem_cons_of_mem _ hc, hcp⟩
      · exact Or.inr h2

/-- Core property of the macro substitution: the pattern does not occur in the
output when the replacement is nonempty and shares no character with the
pattern. -/
theorem not_infix_replaceAllAux {pat rep : Str} (hpat : pat ≠ []) (hrep : rep ≠ [])
    (hdisj : ∀ c ∈ rep, c ∉ pat) :
    ∀ (fuel : Nat) (s : Str), s.length ≤ fuel → ¬ pat <:+: replaceAllAux pat rep fuel s := by
  intro fuel
  induction fuel with
  | zero =>
    intro s hs h
    obtain rfl : s = [] := List.length_eq_zero.mp (Nat.le_zero.mp hs)
    simp only [replaceAllAux] at h
    exact hpat (List.infix_nil.mp h)
  | succ fuel ih =>
    intro s hs h
    cases s with
    | nil =>
      simp only [replaceAllAux] at h
      exact hpat (List.infix_nil.mp h)
    | cons c rest =>
      simp only [replaceAllAux] at h
      by_cases hm : pat ≠ [] ∧ pat.isPrefixOf (c :: rest) = true
      · rw [if_pos (by simpa using hm)] at h
        rcases infix_append_cases hpat _ _ h with ⟨d, hd, hdp⟩ | hR
        · exact hdisj d hd hdp
        · have hlen : ((c :: rest).drop pat.length).length ≤ fuel := by
            have hp1 : 1 ≤ pat.length := by
              cases pat with
              | nil => exact absurd rfl hpat
              | cons _ _ => simp
            simp only [List.length_drop, List.length_cons]
            simp only [List.length_cons] at hs
            omega
          exact ih _ hlen hR
      · rw [if_neg (by simpa using hm)] at h
        have hnpre : ¬ pat <+: c :: rest := by
          intro hcontra
          exact hm ⟨hpat, List.isPrefixOf_iff_prefix.mpr hcontra⟩
        rw [List.infix_cons_iff] at h
        cases h with
        | inr hinf =>
          have hlen : rest.length ≤ fuel := by
            simp only [List.length_cons] at hs
            omega
          exact ih rest hlen hinf
        | inl hpre =>
          cases pat with
          | nil => exact absurd rfl hpat
          | cons p0 pat' =>
            rw [List.cons_prefix_cons] at hpre
            obtain ⟨rfl, hpre'⟩ := hpre
            by_cases hq' : pat' = []
            · subst hq'
              exact hnpre (List.cons_prefix_cons.mpr ⟨rfl, List.nil_prefix⟩)
            · have hchars : ∀ x ∈ pat', x ∉ rep := by
                intro x hx hxrep
                exact hdisj x hxrep (List.mem_cons_of_mem _ hx)
              have hlen : rest.length ≤ fuel := by
                simp only [List.length_cons] at hs
                omega
              have := prefix_of_prefix_replaceAllAux hrep fuel rest pat' hlen hq' hchars hpre'
              exact hnpre (List.cons_prefix_cons.mpr ⟨rfl, this⟩)

/-- The macro substitution removes every occurrence of the pattern. -/
theorem not_infix_replaceAll {pat rep : Str} (hpat : pat ≠ []) (hrep : rep ≠ [])
    (hdisj : ∀ c ∈ rep, c ∉ pat) (s : Str) : ¬ pat <:+: replaceAll pat rep s :=
  not_infix_replaceAllAux hpat hrep hdisj s.length s le_rfl

/-- Digit characters are price characters. -/
theorem digitChar_mem_priceChars {d : Nat} (hd : d < 10) : digitChar d ∈ priceChars := by
  interval_cases d <;> decide

/-- `natDigitsAux` only emits digit characters. -/
theorem natDigitsAux_subset : ∀ (fuel n : Nat), ∀ c ∈ natDigitsAux fuel n, c ∈ priceChars := by
  intro fuel
  induction fuel with
  | zero => intro n c hc; simp [natDigitsAux] at hc
  | succ fuel ih =>
    intro n c hc
    simp only [natDigitsAux] at hc
    by_cases h : n < 10
    · rw [if_pos h] at hc
      simp only [List.mem_singleton] at hc
      subst hc
      exact digitChar_mem_priceChars h
    · rw [if_neg h] at hc
      rcases List.mem_append.mp hc with h1 | h2
      · exact ih _ c h1
      · simp only [List.mem_singleton] at h2
        subst h2
        exact digitChar_mem_priceChars (Nat.mod_lt _ (by norm_num))

/-- `natDigits` only emits digit characters. -/
theorem natDigits_subset (n : Nat) : ∀ c ∈ natDigits n, c ∈ priceChars :=
  natDigitsAux_subset _ n

/-- `natDigits` is never empty. -/
theorem natDigits_ne_nil (n : Nat) : natDigits n ≠ [] := by
  simp only [natDigits, natDigitsAux]
  split <;> simp

/-- `decimalDigits` only emits price characters. -/
theorem decimalDigits_subset (m k : Nat) : ∀ c ∈ decimalDigits m k, c ∈ priceChars := by
  intro c hc
  simp only [decimalDigits] at hc
  split at hc
  · exact natDigits_subset m c hc
  · have tmem : ∀ x ∈ List.replicate (k + 1 - (natDigits m).length) '0' ++ natDigits m,
        x ∈ priceChars := by
      intro x hx
      rcases List.mem_append.mp hx with hr | hn
      · rw [List.eq_of_mem_replicate hr]; decide
      · exact natDigits_subset m x hn
    rcases List.mem_append.mp hc with h1 | h2
    · rcases List.mem_append.mp h1 with h3 | h4
      · exact tmem c (List.mem_of_mem_take h3)
      · simp only [List.mem_singleton] at h4; subst h4; decide
    · exact tmem c (List.mem_of_mem_drop h2)

/-- `decimalDigits` is never empty. -/
theorem decimalDigits_ne_nil (m k : Nat) : decimalDigits m k ≠ [] := by
  simp only [decimalDigits]
  split
  · exact natDigits_ne_nil m
  · simp

/-- The rendering of a non-NaN value only uses price characters. -/
theorem display_subset {p : F64} (hp : p ≠ .nan) : ∀ c ∈ F64.display p, c ∈ priceChars := by
  cases p with
  | nan => exact absurd rfl hp
  | val q =>
    intro c hc
    simp only [F64.display] at hc
    have signmem : c ∈ (if q < 0 then ['-'] else ([] : Str)) → c ∈ priceChars := by
      intro h
      split at h
      · simp only [List.mem_singleton] at h; subst h; decide
      · simp at h
    split at hc
    · rcases List.mem_append.mp hc with h1 | h2
      · exact signmem h1
      · exact decimalDigits_subset _ _ c h2
    · rcases List.mem_append.mp hc with h1 | h2
      · rcases List.mem_append.mp h1 with h3 | h4
        · rcases List.mem_append.mp h3 with h5 | h6
          · exact signmem h5
          · exact natDigits_subset _ c h6
        · simp only [List.mem_singleton] at h4; subst h4; decide
      · exact natDigits_subset _ c h2

/-- The rendering of a non-NaN value is nonempty. -/
theorem display_ne_nil {p : F64} (hp : p ≠ .nan) : F64.display p ≠ [] := by
  cases p with
  | nan => exact absurd rfl hp
  | val q =>
    simp only [F64.display]
    split
    · intro h
      exact decimalDigits_ne_nil _ _ (List.append_eq_nil.mp h).2
    · intro h
      simp [List.append_eq_nil] at h

/-- No price character occurs in the macro token. -/
theorem priceChars_macro_free : ∀ c ∈ priceChars, c ∉ auctionPriceMacro := by decide

/-- The macro token is nonempty. -/
theorem auctionPriceMacro_ne_nil : auctionPriceMacro ≠ [] := by decide

/-- The rendered final price never occurs in, nor contains, the macro. -/
theorem display_macro_free {p : F64} (hp : p ≠ .nan) :
    ∀ c ∈ F64.display p, c ∉ auctionPriceMacro := fun c hc =>
  priceChars_macro_free c (display_subset hp c hc)

/-- After macro substitution with a non-NaN rendered price, the macro token
does not occur in the result. -/
theorem macro_gone_after_replace {p : F64} (hp : p ≠ .nan) (s : Str) :
    ¬ auctionPriceMacro <:+: replaceAll auctionPriceMacro (F64.display p) s :=
  not_infix_replaceAll auctionPriceMacro_ne_nil (display_ne_nil hp) (display_macro_free hp) s

/-- If `rfind` finds nothing, the pattern occurs nowhere. -/
theorem rfindSub_none_no_prefix {pat : Str} :
    ∀ (s : Str), rfindSub pat s = none → ∀ k, ¬ pat <+: s.drop k := by
  intro s
  induction s with
  | nil =>
    intro h k hpre
    simp only [rfindSub] at h
    split at h
    · exact absurd h (by simp)
    · rename_i hne
      have : pat = [] := List.prefix_nil.mp (by simpa using hpre)
      subst this
      simp at hne
  | cons c rest ih =>
    intro h k hpre
    cases hr : rfindSub pat rest with
    | some i =>
      simp only [rfindSub, hr] at h
      exact Option.noConfusion h
    | none =>
      simp only [rfindSub, hr] at h
      split at h
      · exact absurd h (by simp)
      · rename_i hnp
        cases k with
        | zero =>
          simp only [List.drop_zero] at hpre
          exact hnp (List.isPrefixOf_iff_prefix.mpr hpre)
        | succ k' => exact ih hr k' (by simpa using hpre)

/-- If `rfind` returns `some i`, the pattern occurs at `i`. -/
theorem rfindSub_some_prefix {pat : Str} :
    ∀ (s : Str) (i : Nat), rfindSub pat s = some i → pat <+: s.drop i := by
  intro s
  induction s with
  | nil =>
    intro i h
    simp only [rfindSub] at h
    split at h
    · rename_i he
      obtain rfl : (0 : Nat) = i := by simpa using h
      have : pat = [] := by simpa [List.isEmpty_iff] using he
      simp [this]
    · exact absurd h (by simp)
  | cons c rest ih =>
    intro i h
    cases hr : rfindSub pat rest with
    | some j =>
      simp only [rfindSub, hr] at h
      obtain rfl : j + 1 = i := by simpa using h
      simpa using ih j hr
    | none =>
      simp only [rfindSub, hr] at h
      split at h
      · rename_i hp
        obtain rfl : (0 : Nat) = i := by simpa using h
        simpa using List.isPrefixOf_iff_prefix.mp hp
      · exact absurd h (by simp)

/-- `rfind` returns the last occurrence: nothing occurs strictly later. -/
theorem rfindSub_some_maximal {pat : Str} (hpat : pat ≠ []) :
    ∀ (s : Str) (i : Nat), rfindSub pat s = some i → ∀ j, i < j → ¬ pat <+: s.drop j := by
  intro s
  induction s with
  | nil =>
    intro i h
    simp only [rfindSub] at h
    split at h
    · rename_i he
      exact absurd (by simpa [List.isEmpty_iff] using he) hpat
    · exact absurd h (by simp)
  | cons c rest ih =>
    intro i h j hj hpre
    cases hr : rfindSub pat rest with
    | some i' =>
      simp only [rfindSub, hr] at h
      obtain rfl : i' + 1 = i := by simpa using h
      cases j with
      | zero => omega
      | succ j' => exact ih i' hr j' (by omega) (by simpa using hpre)
    | none =>
      simp only [rfindSub, hr] at h
      split at h
      · obtain rfl : (0 : Nat) = i := by simpa using h
        cases j with
        | zero => omega
        | succ j' => exact rfindSub_none_no_prefix rest hr j' (by simpa using hpre)
      · exact absurd h (by simp)

/-- `orderedInsert` only depends on the relation at the inserted element
against the list members. -/
theorem orderedInsert_congr (r s : α → α → Prop) [DecidableRel r] [DecidableRel s] (x : α) :
    ∀ (l : List α), (∀ y ∈ l, r x y ↔ s x y) →
      l.orderedInsert r x = l.orderedInsert s x := by
  intro l
  induction l with
  | nil => intro _; rfl
  | cons y ys ih =>
    intro h
    simp only [List.orderedInsert]
    by_cases hr : r x y
    · rw [if_pos hr, if_pos ((h y (List.mem_cons_self y ys)).mp hr)]
    · rw [if_neg hr, if_neg (fun hs => hr ((h y (List.mem_cons_self y ys)).mpr hs)),
        ih fun z hz => h z (List.mem_cons_of_mem _ hz)]

/-- `insertionSort` only depends on the relation on pairs of list members. -/
theorem insertionSort_congr (r s : α → α → Prop) [DecidableRel r] [DecidableRel s] :
    ∀ (l : List α), (∀ a ∈ l, ∀ b ∈ l, r a b ↔ s a b) →
      l.insertionSort r = l.insertionSort s := by
  intro l
  induction l with
  | nil => intro _; rfl
  | cons x xs ih =>
    intro h
    simp only [List.insertionSort]
    rw [ih fun a ha b hb => h a (List.mem_cons_of_mem _ ha) b (List.mem_cons_of_mem _ hb)]
    exact orderedInsert_congr r s x _ fun y hy =>
      h x (List.mem_cons_self x xs) y
        (List.mem_cons_of_mem _ ((List.mem_insertionSort s).mp hy))

/-- A strict comparator verdict forces distinct keys. -/
theorem keyCmp_gt_ne {key : α → F64} {x y : α} (hgt : keyCmp key x y = .gt) :
    key y ≠ key x := by
  intro he
  rw [keyCmp, he] at hgt
  cases hx : key x with
  | nan => rw [hx] at hgt; simp [F64.pcmp] at hgt
  | val q => rw [hx] at hgt; simp [F64.pcmp] at hgt

/-- Stability of the keyed descending sort at the single-insert level. -/
theorem filter_orderedInsert_key (key : α → F64) (v : F64) (x : α) (l : List α) :
    ((l.orderedInsert (fun a b => keyCmp key a b ≠ .gt) x).filter
        (fun a => decide (key a = v))) =
      if key x = v then x :: l.filter (fun a => decide (key a = v))
      else l.filter (fun a => decide (key a = v)) := by
  rw [List.orderedInsert_eq_take_drop, List.filter_append, List.filter_cons]
  by_cases hv : key x = v
  · rw [if_pos hv]
    have h1 : (l.takeWhile fun b => decide ¬(keyCmp key x b ≠ .gt)).filter
        (fun a => decide (key a = v)) = [] := by
      rw [List.filter_eq_nil_iff]
      intro y hy
      have hgt : keyCmp key x y = .gt := by
        have := List.mem_takeWhile_imp hy
        simpa using this
      simp only [decide_eq_true_eq]
      intro hyv
      exact keyCmp_gt_ne hgt (by rw [hyv, hv])
    rw [h1, if_pos (by simpa using hv)]
    have h2 : l.filter (fun a => decide (key a = v)) =
        ((l.takeWhile fun b => decide ¬(keyCmp key x b ≠ .gt)) ++
          (l.dropWhile fun b => decide ¬(keyCmp key x b ≠ .gt))).filter
          (fun a => decide (key a = v)) := by
      rw [List.takeWhile_append_dropWhile]
    rw [h2, List.filter_append, h1]
    simp
  · rw [if_neg hv, if_neg (by simpa using hv)]
    have h2 : l.filter (fun a => decide (key a = v)) =
        ((l.takeWhile fun b => decide ¬(keyCmp key x b ≠ .gt)) ++
          (l.dropWhile fun b => decide ¬(keyCmp key x b ≠ .gt))).filter
          (fun a => decide (key a = v)) := by
      rw [List.takeWhile_append_dropWhile]
    rw [h2, List.filter_append]

/-- Stability of the keyed descending sort: the subsequence at any fixed key
value is untouched, i.e. ties keep insertion order. -/
theorem filter_sort_by_key (key : α → F64) (v : F64) :
    ∀ (l : List α), ((sort_by (keyCmp key) l).filter (fun a => decide (key a = v))) =
      l.filter (fun a => decide (key a = v)) := by
  intro l
  induction l with
  | nil => rfl
  | cons x xs ih =>
    simp only [sort_by, List.insertionSort] at *
    rw [filter_orderedInsert_key, List.filter_cons]
    by_cases hv : key x = v
    · rw [if_pos hv, if_pos (by simpa using hv), ih]
    · rw [if_neg hv, if_neg (by simpa using hv), ih]

/-- The keyed descending sort yields non-ascending keys when no key is NaN. -/
theorem pairwise_sort_by_key (key : α → F64) (l : List α)
    (hnn : ∀ a ∈ l, key a ≠ .nan) :
    (sort_by (keyCmp key) l).Pairwise
      (fun a b => F64.pcmp (key a) (key b) ≠ some .lt) := by
  haveI : DecidableRel (fun a b : α => qOf (key b) ≤ qOf (key a)) := fun a b =>
    inferInstanceAs (Decidable (_ ≤ _))
  haveI : IsTotal α (fun a b : α => qOf (key b) ≤ qOf (key a)) := ⟨fun a b => le_total _ _⟩
  haveI : IsTrans α (fun a b : α => qOf (key b) ≤ qOf (key a)) :=
    ⟨fun _ _ _ h1 h2 => le_trans h2 h1⟩
  have hs : sort_by (keyCmp key) l =
      l.insertionSort (fun a b => qOf (key b) ≤ qOf (key a)) := by
    apply insertionSort_congr
    intro a ha b hb
    cases hka : key a with
    | nan => exact absurd hka (hnn a ha)
    | val qa =>
      cases hkb : key b with
      | nan => exact absurd hkb (hnn b hb)
      | val qb =>
        simp only [keyCmp, hka, hkb, F64.pcmp, Option.getD_some, qOf]
        split_ifs with h1 h2
        · exact iff_of_true (by simp) (le_of_lt h1)
        · exact iff_of_false (by simp) (not_le.mpr h2)
        · exact iff_of_true (by simp) (not_lt.mp h2)
  rw [hs]
  have hsorted : (l.insertionSort (fun a b => qOf (key b) ≤ qOf (key a))).Pairwise
      (fun a b => qOf (key b) ≤ qOf (key a)) :=
    List.sorted_insertionSort _ l
  refine List.Pairwise.imp_of_mem ?_ hsorted
  intro a b ha hb hab
  have ha' : a ∈ l := (List.mem_insertionSort _).mp ha
  have hb' : b ∈ l := (List.mem_insertionSort _).mp hb
  cases hka : key a with
  | nan => exact absurd hka (hnn a ha')
  | val qa =>
    cases hkb : key b with
    | nan => exact absurd hkb (hnn b hb')
    | val qb =>
      rw [hka, hkb] at hab
      simp only [qOf] at hab
      simp only [F64.pcmp]
      rw [if_neg (not_lt_of_le hab)]
      split <;> simp

/-- An insert through the partial comparator permutes. -/
theorem orderedInsertP_perm (cmp : α → α → Option Ordering) (x : α) :
    ∀ (l l' : List α), orderedInsertP cmp x l = some l' → l'.Perm (x :: l) := by
  intro l
  induction l with
  | nil =>
    intro l' h
    simp only [orderedInsertP] at h
    injection h with h
    subst h
    exact List.Perm.refl _
  | cons y ys ih =>
    intro l' h
    cases hc : cmp x y with
    | none =>
      simp only [orderedInsertP, hc] at h
      exact Option.noConfusion h
    | some o =>
      simp only [orderedInsertP, hc] at h
      split at h
      · injection h with h
        subst h
        exact List.Perm.refl _
      · rcases Option.map_eq_some'.mp h with ⟨t, ht, rfl⟩
        exact ((ih t ht).cons y).trans (List.Perm.swap x y ys)

/-- A sort through the partial comparator permutes. -/
theorem sortByP_perm (cmp : α → α → Option Ordering) :
    ∀ (l l' : List α), sortByP cmp l = some l' → l'.Perm l := by
  intro l
  induction l with
  | nil =>
    intro l' h
    simp only [sortByP] at h
    injection h with h
    subst h
    exact List.Perm.refl _
  | cons x xs ih =>
    intro l' h
    simp only [sortByP] at h
    rcases Option.bind_eq_some.mp h with ⟨t, ht, hins⟩
    exact (orderedInsertP_perm cmp x t l' hins).trans ((ih t ht).cons x)

/-- The insert succeeds when the comparator is defined against all members. -/
theorem orderedInsertP_some (cmp : α → α → Option Ordering) (x : α) :
    ∀ (l : List α), (∀ y ∈ l, cmp x y ≠ none) →
      ∃ l', orderedInsertP cmp x l = some l' := by
  intro l
  induction l with
  | nil => exact fun _ => ⟨[x], rfl⟩
  | cons y ys ih =>
    intro h
    cases hc : cmp x y with
    | none => exact absurd hc (h y (List.mem_cons_self y ys))
    | some o =>
      by_cases ho : o ≠ .gt
      · exact ⟨x :: y :: ys, by simp only [orderedInsertP, hc]; rw [if_pos ho]⟩
      · obtain ⟨t, ht⟩ := ih fun z hz => h z (List.mem_cons_of_mem _ hz)
        exact ⟨y :: t, by simp only [orderedInsertP, hc]; rw [if_neg ho, ht]; rfl⟩

/-- The sort succeeds when the comparator is defined on all pairs. -/
theorem sortByP_some (cmp : α → α → Option Ordering) :
    ∀ (l : List α), (∀ a ∈ l, ∀ b ∈ l, cmp a b ≠ none) →
      ∃ l', sortByP cmp l = some l' := by
  intro l
  induction l with
  | nil => exact fun _ => ⟨[], rfl⟩
  | cons x xs ih =>
    intro h
    obtain ⟨t, ht⟩ := ih fun a ha b hb =>
      h a (List.mem_cons_of_mem _ ha) b (List.mem_cons_of_mem _ hb)
    have hperm := sortByP_perm cmp xs t ht
    obtain ⟨l', hl'⟩ := orderedInsertP_some cmp x t fun y hy =>
      h x (List.mem_cons_self x xs) y (List.mem_cons_of_mem _ (hperm.mem_iff.mp hy))
    exact ⟨l', by simp only [sortByP]; rw [ht]; simpa using hl'⟩

/-- `maxByLast` returns a member. -/
theorem maxByLast_mem {cmp : α → α → Ordering} :
    ∀ (l : List α) (x : α), maxByLast cmp l = some x → x ∈ l := by
  have aux : ∀ (l : List α) (acc : Option α) (x : α),
      l.foldl (fun acc x =>
        match acc with
        | none => some x
        | some a => if cmp a x = .gt then some a else some x) acc = some x →
      x ∈ l ∨ acc = some x := by
    intro l
    induction l with
    | nil => intro acc x h; exact Or.inr h
    | cons y ys ih =>
      intro acc x h
      simp only [List.foldl_cons] at h
      rcases ih _ x h with hm | hacc
      · exact Or.inl (List.mem_cons_of_mem _ hm)
      · cases acc with
        | none =>
          simp only at hacc
          injection hacc with hacc
          subst hacc
          exact Or.inl (List.mem_cons_self _ _)
        | some a =>
          simp only at hacc
          split at hacc
          · exact Or.inr hacc
          · injection hacc with hacc
            subst hacc
            exact Or.inl (List.mem_cons_self _ _)
  intro l x h
  rcases aux l none x h with hm | hacc
  · exact hm
  · exact absurd hacc (by simp)

/-- Membership in the flattened bid list. -/
theorem mem_flattenBids {b : Bid} :
    ∀ (rs : List (BidResponse × F64)),
      b ∈ flattenBids rs ↔ ∃ r ∈ rs, ∃ sb ∈ r.1.seatbid, b ∈ sb.bid := by
  have inner : ∀ (sbs : List SeatBid) (acc : List Bid),
      b ∈ sbs.foldr (fun sb a => sb.bid ++ a) acc ↔
        (∃ sb ∈ sbs, b ∈ sb.bid) ∨ b ∈ acc := by
    intro sbs
    induction sbs with
    | nil => intro acc; simp
    | cons sb sbs ih =>
      intro acc
      simp only [List.foldr_cons, List.mem_append, ih, List.mem_cons]
      constructor
      · rintro (h1 | h2 | h3)
        · exact Or.inl ⟨sb, Or.inl rfl, h1⟩
        · rcases h2 with ⟨sb', hsb', hb'⟩
          exact Or.inl ⟨sb', Or.inr hsb', hb'⟩
        · exact Or.inr h3
      · rintro (⟨sb', hsb' | hsb', hb'⟩ | h3)
        · subst hsb'; exact Or.inl hb'
        · exact Or.inr (Or.inl ⟨sb', hsb', hb'⟩)
        · exact Or.inr (Or.inr h3)
  intro rs
  induction rs with
  | nil => simp [flattenBids]
  | cons r rs ih =>
    simp only [flattenBids] at *
    rw [List.foldr_cons, inner, ih]
    simp only [List.mem_cons]
    constructor
    · rintro (⟨sb, hsb, hb⟩ | ⟨r', hr', h'⟩)
      · exact ⟨r, Or.inl rfl, sb, hsb, hb⟩
      · exact ⟨r', Or.inr hr', h'⟩
    · rintro ⟨r', hr' | hr', h'⟩
      · subst hr'; exact Or.inl h'
      · exact Or.inr ⟨r', hr', h'⟩

/-- `partial_cmp` is defined away from NaN. -/
theorem pcmp_ne_none {a b : F64} (ha : a ≠ .nan) (hb : b ≠ .nan) :
    F64.pcmp a b ≠ none := by
  cases a <;> cases b <;> simp_all [F64.pcmp]

/-! ## Claim theorems -/

/-- Claim C3 (code bug evidence): on a request whose `ssp_uuid` matches no SSP
placement in the catalog, the handler does not produce the 204 skeletal
response the specification requires; it panics in the `expect` of the
placement lookup (`src/api/handlers.rs` line 28). -/
theorem c3_unknown_ssp_uuid_panics :
    handle_openrtb_request [c3Placement] "unknown-uuid".toList c3Request none =
      .error (.expectFailed "No matching SSP placement found".toList) := rfl

/-- Claim C2 (counterexample): on `<html><body>ad</body></html>` the rewriter
inserts the pixel immediately before the final `</body>`, not after it as the
claim states; the spec-worded transformation would append the pixel at the
very end here, and the code's output differs from it. -/
theorem c2_pixel_position_counterexample :
    inject_ssp_tracking c2Adm =
      "<html><body>ad".toList ++ htmlSspTag ++ "</body></html>".toList ∧
    specInjectHtmlAfterBody c2Adm =
      "<html><body>ad</body>".toList ++ htmlSspTag ++ "</html>".toList ∧
    inject_ssp_tracking c2Adm ≠ specInjectHtmlAfterBody c2Adm := by
  refine ⟨by decide, by decide, by decide⟩

/-- Claim C2 (amended): for every winning adm containing `<html`, the ADX
pixel is inserted immediately *before* the final occurrence of `</body>` when
that substring is present (splitting the adm exactly at the last occurrence),
and appended at the very end otherwise. -/
theorem c2_pixel_position_amended (adm : Str) (hhtml : strContains htmlPat adm = true) :
    (∀ pos, rfindSub bodyClosePat adm = some pos →
      inject_ssp_tracking adm = adm.take pos ++ htmlSspTag ++ adm.drop pos ∧
      bodyClosePat <+: adm.drop pos ∧
      ∀ j, pos < j → ¬ bodyClosePat <+: adm.drop j) ∧
    (rfindSub bodyClosePat adm = none → inject_ssp_tracking adm = adm ++ htmlSspTag) := by
  constructor
  · intro pos hpos
    refine ⟨?_, rfindSub_some_prefix adm pos hpos,
      rfindSub_some_maximal (by decide) adm pos hpos⟩
    simp [inject_ssp_tracking, hhtml, hpos]
  · intro hnone
    simp [inject_ssp_tracking, hhtml, hnone]

/-- Claim C2 (witness): the amended statement evaluated on the concrete
creative `<html><body>ad</body></html>`. -/
theorem c2_pixel_position_amended_witness :
    (∀ pos, rfindSub bodyClosePat c2Adm = some pos →
      inject_ssp_tracking c2Adm = c2Adm.take pos ++ htmlSspTag ++ c2Adm.drop pos ∧
      bodyClosePat <+: c2Adm.drop pos ∧
      ∀ j, pos < j → ¬ bodyClosePat <+: c2Adm.drop j) ∧
    (rfindSub bodyClosePat c2Adm = none → inject_ssp_tracking c2Adm = c2Adm ++ htmlSspTag) :=
  c2_pixel_position_amended c2Adm (by decide)

/-- Claim C9: the gatherer's returned list is a permutation of the per-demand
outcome list ordered by `top_price` descending (no later entry has a strictly
greater top price), and ties keep the insertion order of the original demand
list (the subsequence at each fixed price is exactly the one of the unsorted
gather, which is in demand order).  Prices are non-NaN, as prices parsed from
DSP JSON always are. -/
theorem c9_gatherer_order (demands : List Demand) (net : Demand → DspNetResult × Nat)
    (hnn : ∀ o ∈ fetchOutcomes demands net, o.top_price ≠ F64.nan) :
    (fetch_bids demands net).Perm (fetchOutcomes demands net) ∧
    (fetch_bids demands net).Pairwise
      (fun a b => F64.pcmp a.top_price b.top_price ≠ some .lt) ∧
    ∀ v : F64, (fetch_bids demands net).filter (fun o => decide (o.top_price = v)) =
      (fetchOutcomes demands net).filter (fun o => decide (o.top_price = v)) := by
  refine ⟨List.perm_insertionSort _ _, ?_, ?_⟩
  · exact pairwise_sort_by_key DspOutcome.top_price (fetchOutcomes demands net) hnn
  · intro v
    exact filter_sort_by_key DspOutcome.top_price v (fetchOutcomes demands net)

/-- Claim C9 (witness): the gatherer order statement on a concrete catalog of
two enabled demands and one disabled demand. -/
theorem c9_gatherer_order_witness :
    (fetch_bids c9Demands c9Net).Perm (fetchOutcomes c9Demands c9Net) ∧
    (fetch_bids c9Demands c9Net).Pairwise
      (fun a b => F64.pcmp a.top_price b.top_price ≠ some .lt) ∧
    ∀ v : F64, (fetch_bids c9Demands c9Net).filter (fun o => decide (o.top_price = v)) =
      (fetchOutcomes c9Demands c9Net).filter (fun o => decide (o.top_price = v)) :=
  c9_gatherer_order c9Demands c9Net (by decide)

/-- Claim C10: when no gathered top price and no bid price is NaN, the engine
returns without panicking — the `partial_cmp(..).unwrap()` in both sort
comparators never hits `None`, and the `first().unwrap()` is guarded. -/
theorem c10_sort_no_panic (req : BidRequest) (outcomes : List DspOutcome)
    (h1 : ∀ o ∈ outcomes, o.top_price ≠ F64.nan)
    (h2 : ∀ o ∈ outcomes, ∀ sb ∈ o.response.seatbid, ∀ b ∈ sb.bid, b.price ≠ F64.nan) :
    ∃ res, process_bid_request req outcomes = .ok res := by
  have hval2 : ∀ x ∈ validOf outcomes, x.2 ≠ F64.nan := by
    intro x hx
    simp only [validOf, List.mem_map, List.mem_filter] at hx
    obtain ⟨o, ⟨ho, -⟩, rfl⟩ := hx
    exact h1 o ho
  simp only [process_bid_request]
  by_cases hve : (validOf outcomes).isEmpty = true
  · rw [if_pos hve]
    exact ⟨_, rfl⟩
  · rw [if_neg hve]
    obtain ⟨sv, hsv⟩ := sortByP_some cmpValidDesc (validOf outcomes)
      (fun a ha b hb => pcmp_ne_none (hval2 b hb) (hval2 a ha))
    simp only [hsv]
    have hbids : ∀ b ∈ (flattenBids sv).filter (fun b => !contains_sensitive_content b),
        b.price ≠ F64.nan := by
      intro b hb
      have hb' : b ∈ flattenBids sv := (List.mem_filter.mp hb).1
      obtain ⟨r, hr, sb, hsb, hbb⟩ := (mem_flattenBids sv).mp hb'
      have hr' : r ∈ validOf outcomes := ((sortByP_perm _ _ _ hsv).mem_iff).mp hr
      simp only [validOf, List.mem_map, List.mem_filter] at hr'
      obtain ⟨o, ⟨ho, -⟩, rfl⟩ := hr'
      exact h2 o ho sb hsb b hbb
    by_cases hce :
        ((flattenBids sv).filter (fun b => !contains_sensitive_content b)).isEmpty = true
    · rw [if_pos hce]
      exact ⟨_, rfl⟩
    · rw [if_neg hce]
      obtain ⟨sb2, hsb2⟩ := sortByP_some cmpBidPriceDesc
        ((flattenBids sv).filter (fun b => !contains_sensitive_content b))
        (fun a ha b hb => pcmp_ne_none (hbids b hb) (hbids a ha))
      simp only [hsb2]
      cases hsb2' : sb2 with
      | nil =>
        exfalso
        have := (sortByP_perm _ _ _ hsb2).symm
        rw [hsb2'] at this
        have hnil := this.eq_nil
        rw [hnil] at hce
        simp at hce
      | cons w rest => exact ⟨_, rfl⟩

/-- Claim C10 (witness): a concrete NaN-free auction runs to a result. -/
theorem c10_sort_no_panic_witness :
    ∃ res, process_bid_request c10Request [c10Outcome] = .ok res :=
  c10_sort_no_panic c10Request [c10Outcome] (by decide) (by decide)

/-- Inversion of a successful auction: the engine result determines the two
sort runs, the selected winner (head of the sorted surviving bids), and every
field of the produced response and logs. -/
theorem process_success_inversion (req : BidRequest) (outcomes : List DspOutcome)
    (res : EngineResult) (resp : BidResponse)
    (hok : process_bid_request req outcomes = .ok res)
    (hresp : res.response = some resp) :
    ∃ (sv : List (BidResponse × F64)) (sorted : List Bid) (w : Bid) (rest : List Bid),
      sortByP cmpValidDesc (validOf outcomes) = some sv ∧
      sortByP cmpBidPriceDesc
        ((flattenBids sv).filter (fun b => !contains_sensitive_content b)) = some sorted ∧
      sorted = w :: rest ∧
      resp = ⟨req.id, [⟨[winnerRewrite w], some [], some 0⟩],
        none, some "USD".toList, none, none⟩ ∧
      res.adx_result = "success".toList ∧
      res.dsp_details = outcomes.map outcomeDetail ++
        [.priceInfo w.price (F64.mul w.price (.val (4 / 5)))] ∧
      res.logs = (if (outcomes.filterMap failedLogOf).isEmpty then []
        else [.dspInquiryFailed req.id (outcomes.filterMap failedLogOf)]) ++
        ((flattenBids sv).filter contains_sensitive_content).map
          (fun b => LogRecord.bidRejected req.id b.id "contains_sensitive_content".toList) := by
  simp only [process_bid_request] at hok
  split at hok
  · injection hok with hok
    subst hok
    exact Option.noConfusion hresp
  · split at hok
    · exact Except.noConfusion hok
    · rename_i sv hsv
      split at hok
      · injection hok with hok
        subst hok
        exact Option.noConfusion hresp
      · split at hok
        · exact Except.noConfusion hok
        · rename_i sorted hsorted
          split at hok
          · exact Except.noConfusion hok
          · rename_i w tail
            injection hok with hok
            subst hok
            injection hresp with hresp
            subst hresp
            exact ⟨sv, w :: tail, w, tail, hsv, hsorted, rfl, rfl, rfl, rfl, rfl⟩

/-- Claim C1 (amended): for every successful auction the engine computes
`final_price = original_price × 0.8` with the hard-coded 20 % markdown (no
DSP-placement override is consulted), records the pair as the final
`dsp_details` entry, and substitutes it into the adm — but the `price` field
of the returned winner keeps `original_price`: the recorded final price is
exactly `0.8 ×` the price carried by the returned bid. -/
theorem c1_pricing_amended (req : BidRequest) (outcomes : List DspOutcome)
    (res : EngineResult) (resp : BidResponse)
    (hok : process_bid_request req outcomes = .ok res)
    (hresp : res.response = some resp) :
    ∃ w : Bid, resp.seatbid = [⟨[w], some [], some 0⟩] ∧
      res.dsp_details.getLast? =
        some (.priceInfo w.price (F64.mul w.price (.val (4 / 5)))) ∧
      resp.id = req.id ∧ res.adx_result = "success".toList := by
  obtain ⟨sv, sorted, w, rest, hsv, hsorted, hcons, hrespEq, hadx, hdet, hlogs⟩ :=
    process_success_inversion req outcomes res resp hok hresp
  subst hrespEq
  refine ⟨winnerRewrite w, rfl, ?_, rfl, hadx⟩
  rw [hdet, List.getLast?_concat]
  rfl

/-- Claim C1 (witness): the amended pricing statement on the concrete auction
with a single bid at price 2.5. -/
theorem c1_pricing_amended_witness :
    ∃ w : Bid, c1WinResponse.seatbid = [⟨[w], some [], some 0⟩] ∧
      c1EngineRes.dsp_details.getLast? =
        some (.priceInfo w.price (F64.mul w.price (.val (4 / 5)))) ∧
      c1WinResponse.id = c1Request.id ∧ c1EngineRes.adx_result = "success".toList :=
  c1_pricing_amended c1Request [c1Outcome] c1EngineRes c1WinResponse rfl rfl

/-- Claim C1 (counterexample): with one bid at 2.5, the response returned to
the SSP carries price 2.5 — the original price — in the winner's price field,
while `final_price = 2.5 × (1 − 0.2) = 2`, so the claim that the price field
carries `final_price` fails. -/
theorem c1_price_field_counterexample :
    process_bid_request c1Request [c1Outcome] = .ok c1EngineRes ∧
    c1EngineRes.response = some c1WinResponse ∧
    c1WinResponse.seatbid = [⟨[c1Bid], some [], some 0⟩] ∧
    c1Bid.price = .val (5 / 2) ∧
    F64.mul (.val (5 / 2)) (.val (1 - 1 / 5)) = .val 2 ∧
    F64.val (5 / 2) ≠ F64.val 2 :=
  ⟨rfl, rfl, rfl, rfl,
   congrArg F64.val (by norm_num),
   fun h => by
     injection h with h
     norm_num at h⟩

/-- Claim C5 (amended): every successful engine response echoes the request
id, has exactly one seat bid carrying exactly one bid, and is emitted by the
handler as a 200 whenever the placement lookup succeeds; the winner's `impid`
is *not* validated against the request's impression ids. -/
theorem c5_response_shape_amended (req : BidRequest) (outcomes : List DspOutcome)
    (res : EngineResult) (resp : BidResponse)
    (hok : process_bid_request req outcomes = .ok res)
    (hresp : res.response = some resp) :
    resp.id = req.id ∧ resp.seatbid.length = 1 ∧
    (∀ sb ∈ resp.seatbid, sb.bid.length = 1) ∧
    ∀ (pls : List SspPlacement) (uuid : Str),
      (pls.find? (fun sp => sp.ssp_uuid == uuid)).isSome = true →
      handle_openrtb_request pls uuid req (some resp) = .ok (200, resp) := by
  obtain ⟨sv, sorted, w, rest, hsv, hsorted, hcons, hrespEq, hadx, hdet, hlogs⟩ :=
    process_success_inversion req outcomes res resp hok hresp
  subst hrespEq
  refine ⟨rfl, rfl, ?_, ?_⟩
  · intro sb hsb
    rw [List.mem_singleton] at hsb
    subst hsb
    rfl
  · intro pls uuid hfind
    rcases Option.isSome_iff_exists.mp hfind with ⟨sp, hsp⟩
    simp [handle_openrtb_request, hsp]

/-- Claim C5 (witness): the amended response-shape statement on the concrete
one-bid auction. -/
theorem c5_response_shape_amended_witness :
    c1WinResponse.id = c1Request.id ∧ c1WinResponse.seatbid.length = 1 ∧
    (∀ sb ∈ c1WinResponse.seatbid, sb.bid.length = 1) ∧
    ∀ (pls : List SspPlacement) (uuid : Str),
      (pls.find? (fun sp => sp.ssp_uuid == uuid)).isSome = true →
      handle_openrtb_request pls uuid c1Request (some c1WinResponse) =
        .ok (200, c1WinResponse) :=
  c5_response_shape_amended c1Request [c1Outcome] c1EngineRes c1WinResponse rfl rfl

/-- Claim C5 (counterexample): a 200 response whose winner answers impression
id `bogus`, which does not occur among the impression ids of the originating
request — the impid-membership part of the claim fails. -/
theorem c5_impid_counterexample :
    process_bid_request c5Request [c5Outcome] = .ok c5EngineRes ∧
    c5EngineRes.response = some c5WinResponse ∧
    handle_openrtb_request [c5Placement] "u-5".toList c5Request (some c5WinResponse) =
      .ok (200, c5WinResponse) ∧
    c5WinResponse.seatbid = [⟨[c5Bid], some [], some 0⟩] ∧
    c5Bid.impid ∉ c5Request.imp.map ImpDetail.id :=
  ⟨rfl, rfl, rfl, rfl, by decide⟩

/-- Claim C6 (amended): the aggregated `dsp_details` holds one record per
active demand plus, when and only when a winner is selected, the extra
`\x7boriginal_price, final_price\x7d` record, so its length is
`|active_demands|` on no-fill auctions and `|active_demands| + 1` on filled
ones. -/
theorem c6_dsp_details_length_amended (req : BidRequest) (demands : List Demand)
    (net : Demand → DspNetResult × Nat) (res : EngineResult)
    (hok : process_bid_request req (fetch_bids demands net) = .ok res) :
    res.dsp_details.length =
      (active_demands demands).length + (if res.response.isSome then 1 else 0) := by
  have hlen : (fetch_bids demands net).length = (active_demands demands).length := by
    have hperm : (fetch_bids demands net).Perm (fetchOutcomes demands net) :=
      List.perm_insertionSort _ _
    rw [hperm.length_eq]
    simp [fetchOutcomes, active_demands]
  simp only [process_bid_request] at hok
  split at hok
  · injection hok with hok
    subst hok
    simp [hlen]
  · split at hok
    · exact Except.noConfusion hok
    · split at hok
      · injection hok with hok
        subst hok
        simp [hlen]
      · split at hok
        · exact Except.noConfusion hok
        · split at hok
          · exact Except.noConfusion hok
          · injection hok with hok
            subst hok
            simp [hlen]

/-- Claim C6 (witness): the amended length statement on an auction with no
demands (no winner, zero records). -/
theorem c6_dsp_details_length_amended_witness :
    c6EmptyRes.dsp_details.length = (active_demands ([] : List Demand)).length +
      (if c6EmptyRes.response.isSome then 1 else 0) :=
  c6_dsp_details_length_amended c6Request [] c6Net c6EmptyRes rfl

/-- Claim C6 (counterexample): with exactly one active demand and a winning
auction, `dsp_details` holds two records — the per-DSP record plus the
price-info record — so its length differs from `|active_demands| = 1`. -/
theorem c6_dsp_details_length_counterexample :
    process_bid_request c6Request (fetch_bids [c6Demand] c6Net) = .ok c6EngineRes ∧
    c6EngineRes.dsp_details.length = 2 ∧
    (active_demands [c6Demand]).length = 1 ∧
    (2 : Nat) ≠ 1 :=
  ⟨rfl, rfl, rfl, by decide⟩

/-- Claim C8 (amended): a bid is flagged sensitive exactly when the
*space-separated* concatenation `adm ++ " " ++ crid` (the source joins the two
fields with `format!("\x7b\x7d \x7b\x7d", ..)`) contains one of the
case-sensitive keywords; when every bid of every valid response is sensitive,
the engine returns absent after logging `adx_inquiry_failed` with reason
`all_bids_filtered`; and the selected winner is never a sensitive bid. -/
theorem c8_sensitive_filter_amended :
    (∀ b : Bid, contains_sensitive_content b = true ↔
      ∃ w ∈ sensitiveKeywords, w <:+: (b.adm.getD [] ++ [' '] ++ b.crid.getD [])) ∧
    (∀ (req : BidRequest) (outcomes : List DspOutcome),
      (∀ o ∈ outcomes, o.top_price ≠ F64.nan) →
      ¬ (validOf outcomes).isEmpty = true →
      (∀ r ∈ validOf outcomes, ∀ sb ∈ r.1.seatbid, ∀ b ∈ sb.bid,
        contains_sensitive_content b = true) →
      ∃ res, process_bid_request req outcomes = .ok res ∧ res.response = none ∧
        LogRecord.adxInquiryFailed req.id "all_bids_filtered".toList ∈ res.logs) ∧
    (∀ (req : BidRequest) (outcomes : List DspOutcome) (res : EngineResult)
      (resp : BidResponse), process_bid_request req outcomes = .ok res →
      res.response = some resp →
      ∃ w : Bid, contains_sensitive_content w = false ∧
        resp.seatbid = [⟨[winnerRewrite w], some [], some 0⟩]) := by
  refine ⟨?_, ?_, ?_⟩
  · intro b
    simp only [contains_sensitive_content, List.any_eq_true, strContains_iff]
  · intro req outcomes h1 hvne hall
    have hval2 : ∀ x ∈ validOf outcomes, x.2 ≠ F64.nan := by
      intro x hx
      simp only [validOf, List.mem_map, List.mem_filter] at hx
      obtain ⟨o, ⟨ho, -⟩, rfl⟩ := hx
      exact h1 o ho
    obtain ⟨sv, hsv⟩ := sortByP_some cmpValidDesc (validOf outcomes)
      (fun a ha b hb => pcmp_ne_none (hval2 b hb) (hval2 a ha))
    have hce : ((flattenBids sv).filter (fun b => !contains_sensitive_content b)).isEmpty
        = true := by
      rw [List.isEmpty_iff, List.filter_eq_nil_iff]
      intro b hb
      obtain ⟨r, hr, sb, hsb, hbb⟩ := (mem_flattenBids sv).mp hb
      have hr' : r ∈ validOf outcomes := ((sortByP_perm _ _ _ hsv).mem_iff).mp hr
      simp [hall r hr' sb hsb b hbb]
    have hrun : process_bid_request req outcomes =
        .ok ⟨none, "failed".toList, outcomes.map outcomeDetail,
          ((if (outcomes.filterMap failedLogOf).isEmpty then []
            else [.dspInquiryFailed req.id (outcomes.filterMap failedLogOf)]) ++
            ((flattenBids sv).filter contains_sensitive_content).map
              (fun b => LogRecord.bidRejected req.id b.id
                "contains_sensitive_content".toList)) ++
          [.adxInquiryFailed req.id "all_bids_filtered".toList]⟩ := by
      simp only [process_bid_request]
      rw [if_neg hvne]
      simp only [hsv]
      rw [if_pos hce]
    exact ⟨_, hrun, rfl, List.mem_append.mpr (Or.inr (List.mem_singleton.mpr rfl))⟩
  · intro req outcomes res resp hok hresp
    obtain ⟨sv, sorted, w, rest, hsv, hsorted, hcons, hrespEq, hadx, hdet, hlogs⟩ :=
      process_success_inversion req outcomes res resp hok hresp
    subst hrespEq
    refine ⟨w, ?_, rfl⟩
    have hwmem : w ∈ (flattenBids sv).filter (fun b => !contains_sensitive_content b) := by
      have : w ∈ sorted := by rw [hcons]; exact List.mem_cons_self w rest
      exact ((sortByP_perm _ _ _ hsorted).mem_iff).mp this
    have := (List.mem_filter.mp hwmem).2
    simpa using this

/-- Claim C8 (witness): the three amended parts evaluated concretely — the
characterization on the separator-subtle bid, the all-filtered auction on a
`banned` creative, and the winner of the one-bid auction. -/
theorem c8_sensitive_filter_amended_witness :
    (contains_sensitive_content c8SpecBid = true ↔
      ∃ w ∈ sensitiveKeywords,
        w <:+: (c8SpecBid.adm.getD [] ++ [' '] ++ c8SpecBid.crid.getD [])) ∧
    (∃ res, process_bid_request c8SpecRequest [c8FilteredOutcome] = .ok res ∧
      res.response = none ∧
      LogRecord.adxInquiryFailed c8SpecRequest.id "all_bids_filtered".toList ∈ res.logs) ∧
    (∃ w : Bid, contains_sensitive_content w = false ∧
      c1WinResponse.seatbid = [⟨[winnerRewrite w], some [], some 0⟩]) :=
  ⟨c8_sensitive_filter_amended.1 c8SpecBid,
   c8_sensitive_filter_amended.2.1 c8SpecRequest [c8FilteredOutcome]
     (by decide) (by decide) (by decide),
   c8_sensitive_filter_amended.2.2 c1Request [c1Outcome] c1EngineRes c1WinResponse rfl rfl⟩

/-- Claim C8 (counterexample): the claim's separator-free concatenation of
`adm = "forbi"` and `crid = "dden"` contains `forbidden`, so the claim demands
rejection — but the code joins the fields with a space, does not flag the bid,
and returns it as the auction winner. -/
theorem c8_concat_counterexample :
    specSensitiveConcat c8SpecBid = true ∧
    contains_sensitive_content c8SpecBid = false ∧
    process_bid_request c8SpecRequest [c8SpecOutcome] = .ok c8SpecEngineRes ∧
    c8SpecEngineRes.response = some c8SpecWinResponse ∧
    c8SpecWinResponse.seatbid = [⟨[c8SpecBid], some [], some 0⟩] :=
  ⟨by decide, by decide, rfl, rfl, rfl⟩

/-- Claim C4 (amended): the substitution happens strictly before injection and
the injected fragments keep the macro unexpanded; after substitution with the
rendered non-NaN final price the macro occurs nowhere in the substituted adm,
and for HTML, VAST and pass-through creatives the returned adm decomposes into
macro-free DSP-originated parts around the macro-carrying ADX fragment.  (For
native-JSON creatives the JSON round-trip can re-introduce the token from
escape sequences — see the counterexample.) -/
theorem c4_macro_ordering_amended (p : F64) (hp : p ≠ F64.nan) (adm : Str) :
    ¬ auctionPriceMacro <:+: replaceAll auctionPriceMacro (F64.display p) adm ∧
    rewriteWinnerAdm p adm =
      inject_ssp_tracking (replaceAll auctionPriceMacro (F64.display p) adm) ∧
    ∀ r, r = replaceAll auctionPriceMacro (F64.display p) adm →
      (strContains htmlPat r = true →
        ∃ hd tl, r = hd ++ tl ∧ rewriteWinnerAdm p adm = hd ++ htmlSspTag ++ tl ∧
          ¬ auctionPriceMacro <:+: hd ∧ ¬ auctionPriceMacro <:+: tl ∧
          auctionPriceMacro <:+: htmlSspTag) ∧
      (strContains htmlPat r = false → strContains vastPat r = true →
        (∃ hd tl, r = hd ++ tl ∧ rewriteWinnerAdm p adm = hd ++ vastSspTag ++ tl ∧
          ¬ auctionPriceMacro <:+: hd ∧ ¬ auctionPriceMacro <:+: tl ∧
          auctionPriceMacro <:+: vastSspTag) ∨
        (findSub inLinePat r = none ∧ rewriteWinnerAdm p adm = r)) ∧
      (strContains htmlPat r = false → strContains vastPat r = false →
        (trimStart r).head? ≠ some '\x7b' →
        rewriteWinnerAdm p adm = r ∧ ¬ auctionPriceMacro <:+: rewriteWinnerAdm p adm) := by
  have hrepl := macro_gone_after_replace hp adm
  refine ⟨hrepl, rfl, ?_⟩
  intro r hr
  subst hr
  refine ⟨?_, ?_, ?_⟩
  · intro hhtml
    cases hrf : rfindSub bodyClosePat (replaceAll auctionPriceMacro (F64.display p) adm) with
    | some pos =>
      refine ⟨(replaceAll auctionPriceMacro (F64.display p) adm).take pos,
        (replaceAll auctionPriceMacro (F64.display p) adm).drop pos,
        (List.take_append_drop pos _).symm, ?_, ?_, ?_, by decide⟩
      · simp [rewriteWinnerAdm, inject_ssp_tracking, hhtml, hrf]
      · exact fun hin => hrepl (hin.trans (List.take_prefix pos _).isInfix)
      · exact fun hin => hrepl (hin.trans (List.drop_suffix pos _).isInfix)
    | none =>
      refine ⟨replaceAll auctionPriceMacro (F64.display p) adm, [],
        (List.append_nil _).symm, ?_, hrepl,
        fun hin => auctionPriceMacro_ne_nil (List.infix_nil.mp hin), by decide⟩
      simp [rewriteWinnerAdm, inject_ssp_tracking, hhtml, hrf]
  · intro hh hv
    cases hrf : findSub inLinePat (replaceAll auctionPriceMacro (F64.display p) adm) with
    | some pos =>
      refine Or.inl ⟨(replaceAll auctionPriceMacro (F64.display p) adm).take
          (pos + inLinePat.length),
        (replaceAll auctionPriceMacro (F64.display p) adm).drop (pos + inLinePat.length),
        (List.take_append_drop _ _).symm, ?_, ?_, ?_, by decide⟩
      · simp [rewriteWinnerAdm, inject_ssp_tracking, hh, hv, hrf]
      · exact fun hin => hrepl (hin.trans (List.take_prefix _ _).isInfix)
      · exact fun hin => hrepl (hin.trans (List.drop_suffix _ _).isInfix)
    | none =>
      refine Or.inr ⟨rfl, ?_⟩
      simp [rewriteWinnerAdm, inject_ssp_tracking, hh, hv, hrf]
  · intro hh hv hj
    have he : rewriteWinnerAdm p adm = replaceAll auctionPriceMacro (F64.display p) adm := by
      simp [rewriteWinnerAdm, inject_ssp_tracking, hh, hv, hj]
    exact ⟨he, by rw [he]; exact hrepl⟩

/-- Claim C4 (witness): the amended macro-ordering statement on an HTML
creative carrying the macro, at final price 2. -/
theorem c4_macro_ordering_amended_witness :
    ¬ auctionPriceMacro <:+: replaceAll auctionPriceMacro (F64.display (.val 2)) c4WitnessAdm ∧
    rewriteWinnerAdm (.val 2) c4WitnessAdm =
      inject_ssp_tracking (replaceAll auctionPriceMacro (F64.display (.val 2)) c4WitnessAdm) ∧
    ∀ r, r = replaceAll auctionPriceMacro (F64.display (.val 2)) c4WitnessAdm →
      (strContains htmlPat r = true →
        ∃ hd tl, r = hd ++ tl ∧
          rewriteWinnerAdm (.val 2) c4WitnessAdm = hd ++ htmlSspTag ++ tl ∧
          ¬ auctionPriceMacro <:+: hd ∧ ¬ auctionPriceMacro <:+: tl ∧
          auctionPriceMacro <:+: htmlSspTag) ∧
      (strContains htmlPat r = false → strContains vastPat r = true →
        (∃ hd tl, r = hd ++ tl ∧
          rewriteWinnerAdm (.val 2) c4WitnessAdm = hd ++ vastSspTag ++ tl ∧
          ¬ auctionPriceMacro <:+: hd ∧ ¬ auctionPriceMacro <:+: tl ∧
          auctionPriceMacro <:+: vastSspTag) ∨
        (findSub inLinePat r = none ∧ rewriteWinnerAdm (.val 2) c4WitnessAdm = r)) ∧
      (strContains htmlPat r = false → strContains vastPat r = false →
        (trimStart r).head? ≠ some '\x7b' →
        rewriteWinnerAdm (.val 2) c4WitnessAdm = r ∧
        ¬ auctionPriceMacro <:+: rewriteWinnerAdm (.val 2) c4WitnessAdm) :=
  c4_macro_ordering_amended (.val 2) (by decide) c4WitnessAdm

set_option maxRecDepth 8192 in
/-- Claim C4 (counterexample): a native-JSON creative that contains no literal
macro token (the substitution pass leaves it unchanged), yet whose returned
adm carries the literal token inside the DSP-originated field `a` — the JSON
round-trip decodes the `{` escape — so the token does appear in the
DSP-originated portion of the returned adm, not only in the injected
fragments. -/
theorem c4_macro_scope_counterexample :
    strContains auctionPriceMacro c4Adm = false ∧
    replaceAll auctionPriceMacro (F64.display (.val 2)) c4Adm = c4Adm ∧
    rewriteWinnerAdm (.val 2) c4Adm = c4AdmOut ∧
    strContains ("\"a\":\"\x7bAUCTION_PRICE\x7d\"".toList)
      (rewriteWinnerAdm (.val 2) c4Adm) = true :=
  ⟨by decide, by decide, by decide, by decide⟩

end AdxRs
